import Mathlib

/-!
Verification development for the TikTok-to-Bitable collection plugin.

Shallow embedding of the collection and synchronization engine:
  * `normalizeUrlKey` (src/utils/helpTip.ts) with a model of the host URL
    constructor restricted to hierarchical (`scheme://authority/path`) URLs,
  * the commerce-detection pipeline (src/services/commerceDetection.ts) over a
    model of already-JSON-decoded JavaScript values,
  * the two-phase write scheduler (src/services/bitableApi.ts),
  * the 429 quota governor (src/hooks/useQuota.ts),
  * the cursor-walking fetch loop with stall detection (the keyword / account
    collection functions).

Machine integers are modelled as `Nat`/`Int`; the IEEE-754 double rounding the
host JSON parser applies to wide integer literals is modelled explicitly by
`float64Round`.
-/

namespace Plugin

/-! ## String helpers (models of host string primitives) -/

/-- Model of JavaScript `String.prototype.toLowerCase` (ASCII case folding,
which is all the normalization keys rely on). -/
def lowerStr (s : String) : String :=
  String.mk (s.data.map Char.toLower)

theorem lowerStr_append (a b : String) :
    lowerStr (a ++ b) = lowerStr a ++ lowerStr b := by
  cases a with
  | mk da =>
    cases b with
    | mk db =>
      show String.mk ((da ++ db).map Char.toLower)
          = String.mk (da.map Char.toLower) ++ String.mk (db.map Char.toLower)
      rw [List.map_append]
      rfl

/-- Model of JavaScript `String.prototype.trim` (strip whitespace at both
ends). -/
def trimStr (s : String) : String :=
  String.mk (((s.data.dropWhile Char.isWhitespace).reverse.dropWhile
    Char.isWhitespace).reverse)

theorem lowerStr_data (s : String) : (lowerStr s).data = s.data.map Char.toLower := rfl

/-! ## Model of the host WHATWG URL constructor

`new URL(raw)` is a host primitive.  The model below parses the hierarchical
URLs the dedup keys are built from: `scheme://authority/path?query#fragment`.
The authority (everything before the first `/`, `?` or `#`) plays the role of
`url.host`; the path is everything up to the query or fragment, and an absent
path is `/` (as the host URL parser reports for special schemes).  Inputs that
do not fit this shape (no scheme, no `//`, empty authority) make the model
return `none`, corresponding to the constructor throwing. -/

structure ParsedUrl where
  scheme : String
  host : String
  pathname : String
deriving DecidableEq, Repr

def isSchemeChar (c : Char) : Bool :=
  c.isAlpha || c.isDigit || c = '+' || c = '-' || c = '.'

def isAuthorityEnd (c : Char) : Bool :=
  c = '/' || c = '?' || c = '#'

def isPathEnd (c : Char) : Bool :=
  c = '?' || c = '#'

def parseUrlChars (cs : List Char) : Option ParsedUrl :=
  let scheme := cs.takeWhile isSchemeChar
  let rest := cs.drop scheme.length
  match scheme, rest with
  | c0 :: _, ':' :: '/' :: '/' :: rest2 =>
    if c0.isAlpha then
      let auth := rest2.takeWhile (fun c => !isAuthorityEnd c)
      if auth.isEmpty then none
      else
        let rest3 := rest2.drop auth.length
        let path :=
          match rest3 with
          | '/' :: _ => rest3.takeWhile (fun c => !isPathEnd c)
          | _ => ['/']
        some ⟨String.mk scheme, String.mk auth, String.mk path⟩
    else none
  | _, _ => none

/-- Model of `new URL(s)` restricted to the component reads `normalizeUrlKey`
performs (`protocol`, `host`, `pathname`). -/
def parseUrl (s : String) : Option ParsedUrl :=
  parseUrlChars s.data

/-- `normalizeUrlKey` (src/utils/helpTip.ts:51-62): keep
`protocol + "//" + host + pathname`, lower-cased; on a parse failure fall back
to the trimmed lower-cased input; an empty (falsy) input yields `""`. -/
def normalizeUrlKey (raw : String) : String :=
  if raw = "" then ""
  else
    match parseUrl (trimStr raw) with
    | some url => lowerStr (url.scheme ++ ":" ++ "//" ++ url.host ++ url.pathname)
    | none => lowerStr (trimStr raw)

theorem lowerStr_eq_of_map_eq {a b : String}
    (h : a.data.map Char.toLower = b.data.map Char.toLower) :
    lowerStr a = lowerStr b := by
  cases a; cases b; exact congrArg String.mk h

/-- C6: two raw share-URL strings that parse to the same scheme, host and path
modulo letter casing produce the identical dedup key. -/
theorem normalizeUrlKey_same_canonical (r1 r2 : String) (u1 u2 : ParsedUrl)
    (h1 : parseUrl (trimStr r1) = some u1) (h2 : parseUrl (trimStr r2) = some u2)
    (hs : lowerStr u1.scheme = lowerStr u2.scheme)
    (hh : lowerStr u1.host = lowerStr u2.host)
    (hp : lowerStr u1.pathname = lowerStr u2.pathname) :
    normalizeUrlKey r1 = normalizeUrlKey r2 := by
  have hr1 : r1 ≠ "" := by
    intro h
    rw [h] at h1
    have : parseUrl (trimStr "") = none := by decide
    rw [this] at h1
    exact Option.noConfusion h1
  have hr2 : r2 ≠ "" := by
    intro h
    rw [h] at h2
    have : parseUrl (trimStr "") = none := by decide
    rw [this] at h2
    exact Option.noConfusion h2
  unfold normalizeUrlKey
  rw [if_neg hr1, if_neg hr2, h1, h2]
  have es : u1.scheme.data.map Char.toLower = u2.scheme.data.map Char.toLower := by
    have := congrArg String.data hs
    simpa [lowerStr_data] using this
  have eh : u1.host.data.map Char.toLower = u2.host.data.map Char.toLower := by
    have := congrArg String.data hh
    simpa [lowerStr_data] using this
  have ep : u1.pathname.data.map Char.toLower = u2.pathname.data.map Char.toLower := by
    have := congrArg String.data hp
    simpa [lowerStr_data] using this
  apply lowerStr_eq_of_map_eq
  simp only [String.data_append, List.map_append, es, eh, ep]

/-- Witness for C6 at a concrete pair differing in query, fragment and case. -/
theorem normalizeUrlKey_same_canonical_witness :
    normalizeUrlKey "https://WWW.TikTok.com/@User/video/123?foo=bar#xyz"
      = normalizeUrlKey "https://www.tiktok.com/@user/video/123" :=
  normalizeUrlKey_same_canonical
    "https://WWW.TikTok.com/@User/video/123?foo=bar#xyz"
    "https://www.tiktok.com/@user/video/123"
    ⟨"https", "WWW.TikTok.com", "/@User/video/123"⟩
    ⟨"https", "www.tiktok.com", "/@user/video/123"⟩
    (by decide) (by decide) (by decide) (by decide) (by decide)

/-- C10: on inputs the URL parser rejects, `normalizeUrlKey` returns the
trimmed, lower-cased input verbatim (so no query stripping happens there), and
the empty input returns the empty string. -/
theorem normalizeUrlKey_fallback (raw : String)
    (h : parseUrl (trimStr raw) = none) :
    normalizeUrlKey raw = lowerStr (trimStr raw) ∧ normalizeUrlKey "" = "" := by
  constructor
  · unfold normalizeUrlKey
    by_cases hraw : raw = ""
    · subst hraw
      rw [if_pos rfl]
      rfl
    · rw [if_neg hraw, h]
  · rfl

/-- Witness for C10 at a concrete unparseable input: the query-string text is
kept, only trimmed and lower-cased. -/
theorem normalizeUrlKey_fallback_witness :
    normalizeUrlKey "  Not a URL?q=1 " = lowerStr (trimStr "  Not a URL?q=1 ") ∧
      normalizeUrlKey "" = "" :=
  normalizeUrlKey_fallback "  Not a URL?q=1 " (by decide)

/-! ## Write scheduler (src/services/bitableApi.ts)

`fillEmptyRecords` / `addRecordsInBatches` are modelled over an opaque field
payload type `α`.  The datastore write calls are modelled by an environment:
`writeFails` says whether filling a given empty row with a given record throws
(the per-field `setCellValue` loop failing), and `appendId` gives the record id
the datastore assigns to the n-th appended record of the call (the value
`addRecords` / `addRecord` returns).  The mutable stop ref is modelled as a
boolean that is constant over the call, as no claim toggles it mid-write. -/

/-- A pending record: its original position in the input batch plus its field
payload (`{ index, fields }` in the source). -/
structure Pending (α : Type) where
  index : Nat
  fields : α
deriving DecidableEq, Repr

structure FillResult (α : Type) where
  filledCount : Nat
  remainingRecords : List (Pending α)
  filledRecordIds : List (Nat × String)
deriving DecidableEq, Repr

/-- `fillEmptyRecords` (src/services/bitableApi.ts:488-535): walk the empty-row
ids in pool order, shifting the next pending record off the front of the queue;
a successful write counts as filled and records `(index, recordId)`; a failed
write pushes the record to the back of the queue. -/
def fillEmptyRecords {α : Type} (emptyRecordIds : List String)
    (records : List (Pending α)) (writeFails : String → Pending α → Bool)
    (stop : Bool) : FillResult α :=
  match emptyRecordIds with
  | [] => ⟨0, records, []⟩
  | recordId :: restIds =>
    if stop then ⟨0, records, []⟩
    else
      match records with
      | [] => ⟨0, [], []⟩
      | next :: rest =>
        if writeFails recordId next then
          fillEmptyRecords restIds (rest ++ [next]) writeFails stop
        else
          let res := fillEmptyRecords restIds rest writeFails stop
          ⟨res.filledCount + 1, res.remainingRecords,
            (next.index, recordId) :: res.filledRecordIds⟩

/-- The chunking of phase 2: `for (let i = 0; i < len; i += batchSize)`.
The fuel argument makes the recursion structural (the list length bounds the
number of chunks when the chunk size is positive). -/
def chunksOfAux {α : Type} (n : Nat) : Nat → List α → List (List α)
  | _, [] => []
  | 0, l => [l]
  | fuel + 1, x :: xs => (x :: xs).take n :: chunksOfAux n fuel ((x :: xs).drop n)

def chunksOf {α : Type} (n : Nat) (l : List α) : List (List α) :=
  if n = 0 then [l] else chunksOfAux n l.length l

structure BatchEnv (α : Type) where
  writeFails : String → Pending α → Bool
  appendId : Nat → String

structure BatchResult where
  filledCount : Nat
  appendedCount : Nat
  recordIds : List String
  leftoverEmptyIds : List String
deriving DecidableEq, Repr

/-- Store the ids the batch-insert returned for one chunk:
`recordIdsByIndex[target.index] = id`, skipping empty (falsy) ids. `counter`
numbers the appended records across the whole call. -/
def setChunkIds {α : Type} (env : BatchEnv α) (chunk : List (Pending α))
    (ids : List String) (counter : Nat) : List String :=
  match chunk with
  | [] => ids
  | p :: ps =>
    let id := env.appendId counter
    let ids2 := if id = "" then ids else ids.set p.index id
    setChunkIds env ps ids2 (counter + 1)

/-- Phase 2 of `addRecordsInBatches`: append the chunks in order, stopping
between chunks when the stop flag is raised. -/
def appendChunks {α : Type} (env : BatchEnv α) (stop : Bool) :
    List (List (Pending α)) → List String → Nat → Nat → List String × Nat
  | [], ids, _, appended => (ids, appended)
  | chunk :: rest, ids, counter, appended =>
    if stop then (ids, appended)
    else
      appendChunks env stop rest (setChunkIds env chunk ids counter)
        (counter + chunk.length) (appended + chunk.length)

structure Phase1Out (α : Type) where
  filledCount : Nat
  remainingRecords : List (Pending α)
  ids : List String
  leftoverEmptyIds : List String

/-- Phase 1 of `addRecordsInBatches`: take at most `pend.length` slot ids off
the pool (the `splice`) and fill them; record-id assignments of filled rows are
stored at the records' original positions. -/
def fillPhase {α : Type} (pend : List (Pending α)) (idsInit : List String)
    (emptyRecordIds : List String) (env : BatchEnv α) (stop : Bool) :
    Phase1Out α :=
  if emptyRecordIds ≠ [] then
    if emptyRecordIds.take pend.length ≠ [] then
      ⟨(fillEmptyRecords (emptyRecordIds.take pend.length) pend
          env.writeFails stop).filledCount,
        (fillEmptyRecords (emptyRecordIds.take pend.length) pend
          env.writeFails stop).remainingRecords,
        (fillEmptyRecords (emptyRecordIds.take pend.length) pend
          env.writeFails stop).filledRecordIds.foldl
          (fun acc pr => acc.set pr.1 pr.2) idsInit,
        emptyRecordIds.drop pend.length⟩
    else ⟨0, pend, idsInit, emptyRecordIds.drop pend.length⟩
  else ⟨0, pend, idsInit, emptyRecordIds⟩

/-- Phase 2 of `addRecordsInBatches`: append the remaining records in chunks,
unless there are none or the stop flag is raised. -/
def appendPhase {α : Type} (p1 : Phase1Out α) (batchSize : Nat)
    (env : BatchEnv α) (stop : Bool) : BatchResult :=
  if p1.remainingRecords.isEmpty || stop then
    ⟨p1.filledCount, 0, p1.ids, p1.leftoverEmptyIds⟩
  else
    ⟨p1.filledCount,
      (appendChunks env stop (chunksOf batchSize p1.remainingRecords) p1.ids 0 0).2,
      (appendChunks env stop (chunksOf batchSize p1.remainingRecords) p1.ids 0 0).1,
      p1.leftoverEmptyIds⟩

/-- `addRecordsInBatches` (src/services/bitableApi.ts:553-652): phase 1 fills
empty rows, phase 2 appends the remaining records in chunks, and every
assigned id is stored at the record's original input position. -/
def addRecordsInBatches {α : Type} (records : List α) (batchSize : Nat)
    (emptyRecordIds : List String) (env : BatchEnv α) (stop : Bool) :
    BatchResult :=
  appendPhase
    (fillPhase (records.enum.map (fun p => ⟨p.1, p.2⟩))
      (List.replicate records.length "") emptyRecordIds env stop)
    batchSize env stop

/-! ### Facts about the fill phase -/

theorem fillEmptyRecords_no_fail {α : Type} (slots : List String)
    (f : String → Pending α → Bool) (hf : ∀ s p, f s p = false) :
    ∀ q : List (Pending α),
    fillEmptyRecords slots q f false =
      ⟨min slots.length q.length, q.drop slots.length,
        List.zip ((q.take slots.length).map Pending.index) slots⟩ := by
  induction slots with
  | nil => intro q; simp [fillEmptyRecords]
  | cons s ss ih =>
    intro q
    cases q with
    | nil => simp [fillEmptyRecords]
    | cons r rs =>
      simp [fillEmptyRecords, hf, ih rs, Nat.succ_min_succ]

theorem fillEmptyRecords_count_eq_length {α : Type} (slots : List String)
    (f : String → Pending α → Bool) :
    ∀ q : List (Pending α),
    (fillEmptyRecords slots q f false).filledCount
      = (fillEmptyRecords slots q f false).filledRecordIds.length := by
  induction slots with
  | nil => intro q; simp [fillEmptyRecords]
  | cons s ss ih =>
    intro q
    cases q with
    | nil => simp [fillEmptyRecords]
    | cons r rs =>
      by_cases hf : f s r
      · simpa [fillEmptyRecords, hf] using ih (rs ++ [r])
      · simpa [fillEmptyRecords, hf] using ih rs

theorem fillEmptyRecords_tail_intact {α : Type} (slots : List String)
    (f : String → Pending α → Bool) :
    ∀ q1 q2 : List (Pending α), slots.length ≤ q1.length →
    ∃ pre post, (fillEmptyRecords slots (q1 ++ q2) f false).remainingRecords
      = pre ++ q2 ++ post := by
  induction slots with
  | nil =>
    intro q1 q2 _
    exact ⟨q1, [], by simp [fillEmptyRecords]⟩
  | cons s ss ih =>
    intro q1 q2 hlen
    cases q1 with
    | nil => simp at hlen
    | cons r q1a =>
      simp only [List.cons_append]
      by_cases hf : f s r
      · have h2 : ss.length ≤ q1a.length := by
          simpa [Nat.succ_le_succ_iff] using hlen
        obtain ⟨pre, post, hpp⟩ := ih q1a (q2 ++ [r]) h2
        refine ⟨pre, [r] ++ post, ?_⟩
        show (fillEmptyRecords (s :: ss) (r :: (q1a ++ q2)) f false).remainingRecords
          = pre ++ q2 ++ ([r] ++ post)
        have : fillEmptyRecords (s :: ss) (r :: (q1a ++ q2)) f false
            = fillEmptyRecords ss ((q1a ++ q2) ++ [r]) f false := by
          simp [fillEmptyRecords, hf]
        rw [this]
        rw [show q1a ++ q2 ++ [r] = q1a ++ (q2 ++ [r]) from List.append_assoc _ _ _]
        rw [hpp]
        simp
      · have h2 : ss.length ≤ q1a.length := by
          simpa [Nat.succ_le_succ_iff] using hlen
        obtain ⟨pre, post, hpp⟩ := ih q1a q2 h2
        refine ⟨pre, post, ?_⟩
        show (fillEmptyRecords (s :: ss) (r :: (q1a ++ q2)) f false).remainingRecords
          = pre ++ q2 ++ post
        have : (fillEmptyRecords (s :: ss) (r :: (q1a ++ q2)) f false).remainingRecords
            = (fillEmptyRecords ss (q1a ++ q2) f false).remainingRecords := by
          simp [fillEmptyRecords, hf]
        rw [this, hpp]

theorem fillEmptyRecords_index_perm {α : Type} (slots : List String)
    (f : String → Pending α → Bool) :
    ∀ q : List (Pending α),
    ((fillEmptyRecords slots q f false).filledRecordIds.map Prod.fst
      ++ (fillEmptyRecords slots q f false).remainingRecords.map Pending.index).Perm
      (q.map Pending.index) := by
  induction slots with
  | nil => intro q; simp [fillEmptyRecords]
  | cons s ss ih =>
    intro q
    cases q with
    | nil => simp [fillEmptyRecords]
    | cons r rs =>
      by_cases hf : f s r
      · have h1 := ih (rs ++ [r])
        have heq : fillEmptyRecords (s :: ss) (r :: rs) f false
            = fillEmptyRecords ss (rs ++ [r]) f false := by
          simp [fillEmptyRecords, hf]
        rw [heq]
        refine h1.trans ?_
        rw [List.map_append]
        exact (List.perm_append_singleton _ _).trans (List.Perm.refl _)
      · have h1 := ih rs
        have heq : fillEmptyRecords (s :: ss) (r :: rs) f false
            = ⟨(fillEmptyRecords ss rs f false).filledCount + 1,
                (fillEmptyRecords ss rs f false).remainingRecords,
                (r.index, s) :: (fillEmptyRecords ss rs f false).filledRecordIds⟩ := by
          simp [fillEmptyRecords, hf]
        rw [heq]
        simpa using h1.cons r.index

/-- C7: during the fill phase, a record whose per-field write fails is pushed
to the back of the pending queue (so it survives into the append phase) rather
than discarded: it ends up among the remaining records, it is not among the
filled record ids, and no record is lost (filled + remaining = input count).
The hypothesis `slots.length ≤ rs.length` mirrors the caller
(`addRecordsInBatches` takes at most as many slot ids as pending records). -/
theorem fillEmptyRecords_requeues_failed {α : Type} (s : String)
    (slots : List String) (r : Pending α) (rs : List (Pending α))
    (f : String → Pending α → Bool)
    (hfail : f s r = true) (hlen : slots.length ≤ rs.length)
    (hidx : r.index ∉ rs.map Pending.index) :
    r ∈ (fillEmptyRecords (s :: slots) (r :: rs) f false).remainingRecords ∧
    (∀ pr ∈ (fillEmptyRecords (s :: slots) (r :: rs) f false).filledRecordIds,
      pr.1 ≠ r.index) ∧
    (fillEmptyRecords (s :: slots) (r :: rs) f false).filledCount
      + (fillEmptyRecords (s :: slots) (r :: rs) f false).remainingRecords.length
      = (r :: rs).length := by
  have heq : fillEmptyRecords (s :: slots) (r :: rs) f false
      = fillEmptyRecords slots (rs ++ [r]) f false := by
    simp [fillEmptyRecords, hfail]
  have hperm := fillEmptyRecords_index_perm slots f (rs ++ [r])
  have hmem : r ∈ (fillEmptyRecords slots (rs ++ [r]) f false).remainingRecords := by
    obtain ⟨pre, post, hpp⟩ := fillEmptyRecords_tail_intact slots f rs [r] hlen
    rw [hpp]
    simp
  have hcount : (fillEmptyRecords slots (rs ++ [r]) f false).filledCount
      + (fillEmptyRecords slots (rs ++ [r]) f false).remainingRecords.length
      = (r :: rs).length := by
    have hl := hperm.length_eq
    have hl2 : (fillEmptyRecords slots (rs ++ [r]) f false).filledRecordIds.length
        + (fillEmptyRecords slots (rs ++ [r]) f false).remainingRecords.length
        = rs.length + 1 := by simpa using hl
    rw [fillEmptyRecords_count_eq_length]
    simp only [List.length_cons]
    omega
  refine ⟨heq ▸ hmem, ?_, heq ▸ hcount⟩
  rw [heq]
  intro pr hpr
  intro hbad
  -- count r.index: on the right side it occurs exactly once (r.index ∉ rs.map index)
  have hcnt := hperm.count_eq r.index
  rw [List.map_append] at hcnt
  have hrhs : List.count r.index (rs.map Pending.index ++ [r].map Pending.index) = 1 := by
    rw [List.count_append]
    rw [List.count_eq_zero_of_not_mem hidx]
    simp
  rw [hrhs, List.count_append] at hcnt
  have hfcnt : 0 < List.count r.index
      ((fillEmptyRecords slots (rs ++ [r]) f false).filledRecordIds.map Prod.fst) := by
    have : r.index ∈ (fillEmptyRecords slots (rs ++ [r]) f false).filledRecordIds.map
        Prod.fst := List.mem_map.mpr ⟨pr, hpr, hbad⟩
    exact List.count_pos_iff.mpr this
  have hrcnt : 0 < List.count r.index
      ((fillEmptyRecords slots (rs ++ [r]) f false).remainingRecords.map Pending.index) := by
    have : r.index ∈ (fillEmptyRecords slots (rs ++ [r]) f false).remainingRecords.map
        Pending.index := List.mem_map.mpr ⟨r, hmem, rfl⟩
    exact List.count_pos_iff.mpr this
  omega

/-- The record whose write fails in the C7 witness. -/
def r7w : Pending Nat := ⟨0, 10⟩

/-- Witness for C7: a concrete fill where the first slot write fails. -/
theorem fillEmptyRecords_requeues_failed_witness :
    ((fun sid (p : Pending Nat) => sid = "slotA" && decide (p.index = 0))
        "slotA" ⟨0, 10⟩ = true) ∧
    r7w ∈ (fillEmptyRecords ["slotA", "slotB"] [r7w, ⟨1, 11⟩, ⟨2, 12⟩]
      (fun sid p => sid = "slotA" && decide (p.index = 0)) false).remainingRecords :=
  ⟨by decide,
    (fillEmptyRecords_requeues_failed "slotA" ["slotB"] ⟨0, 10⟩ [⟨1, 11⟩, ⟨2, 12⟩]
      (fun sid p => sid = "slotA" && decide (p.index = 0))
      (by decide) (by decide) (by decide)).1⟩

/-! ### Facts about id bookkeeping and the append phase -/

theorem foldl_set_length (pairs : List (Nat × String)) :
    ∀ ids : List String,
    (pairs.foldl (fun acc pr => acc.set pr.1 pr.2) ids).length = ids.length := by
  induction pairs with
  | nil => intro ids; rfl
  | cons p ps ih =>
    intro ids
    rw [List.foldl_cons, ih, List.length_set]

theorem getD_set_get (l : List String) (i j : Nat) (v : String) :
    (l.set i v).getD j "" = if i = j ∧ i < l.length then v else l.getD j "" := by
  by_cases hij : i = j
  · subst hij
    by_cases hlt : i < l.length
    · simp only [hlt, and_true, if_pos, true_and, if_true]
      rw [List.getD_eq_getElem _ _ (by simpa using hlt)]
      simp [List.getElem_set, hlt]
    · rw [List.set_eq_of_length_le (by omega)]
      simp [hlt]
  · simp only [hij, false_and, if_false]
    unfold List.getD
    rw [List.get?_eq_getElem?, List.get?_eq_getElem?, List.getElem?_set_ne hij]

theorem foldl_set_keeps (pairs : List (Nat × String)) :
    ∀ (ids : List String) (i : Nat), ids.getD i "" ≠ "" →
    (∀ pr ∈ pairs, pr.2 ≠ "") →
    (pairs.foldl (fun acc pr => acc.set pr.1 pr.2) ids).getD i "" ≠ "" := by
  induction pairs with
  | nil => intro ids i h _; exact h
  | cons p ps ih =>
    intro ids i h hvals
    rw [List.foldl_cons]
    apply ih
    · rw [getD_set_get]
      by_cases hc : p.1 = i ∧ p.1 < ids.length
      · rw [if_pos hc]; exact hvals p (List.mem_cons_self _ _)
      · rw [if_neg hc]; exact h
    · exact fun pr hpr => hvals pr (List.mem_cons_of_mem _ hpr)

theorem foldl_set_covers (pairs : List (Nat × String)) :
    ∀ (ids : List String) (i : Nat) (v : String), (i, v) ∈ pairs →
    i < ids.length → v ≠ "" → (∀ pr ∈ pairs, pr.2 ≠ "") →
    (pairs.foldl (fun acc pr => acc.set pr.1 pr.2) ids).getD i "" ≠ "" := by
  induction pairs with
  | nil => intro ids i v h; exact absurd h (List.not_mem_nil _)
  | cons p ps ih =>
    intro ids i v hmem hi hv hvals
    rw [List.foldl_cons]
    rcases List.mem_cons.mp hmem with heq | htail
    · apply foldl_set_keeps
      · rw [getD_set_get, if_pos ⟨by rw [← heq], by rw [← heq]; exact hi⟩]
        rw [← heq]
        exact hv
      · exact fun pr hpr => hvals pr (List.mem_cons_of_mem _ hpr)
    · exact ih (ids.set p.1 p.2) i v htail (by rw [List.length_set]; exact hi) hv
        (fun pr hpr => hvals pr (List.mem_cons_of_mem _ hpr))

theorem setChunkIds_length {α : Type} (env : BatchEnv α) (chunk : List (Pending α)) :
    ∀ (ids : List String) (counter : Nat),
    (setChunkIds env chunk ids counter).length = ids.length := by
  induction chunk with
  | nil => intro ids counter; rfl
  | cons p ps ih =>
    intro ids counter
    rw [setChunkIds, ih]
    by_cases hid : env.appendId counter = ""
    · rw [if_pos hid]
    · rw [if_neg hid, List.length_set]

theorem setChunkIds_keeps {α : Type} (env : BatchEnv α) (chunk : List (Pending α)) :
    ∀ (ids : List String) (counter i : Nat), ids.getD i "" ≠ "" →
    (setChunkIds env chunk ids counter).getD i "" ≠ "" := by
  induction chunk with
  | nil => intro ids counter i h; exact h
  | cons p ps ih =>
    intro ids counter i h
    rw [setChunkIds]
    apply ih
    by_cases hid : env.appendId counter = ""
    · rw [if_pos hid]; exact h
    · rw [if_neg hid, getD_set_get]
      by_cases hc : p.index = i ∧ p.index < ids.length
      · rw [if_pos hc]; exact hid
      · rw [if_neg hc]; exact h

theorem setChunkIds_covers {α : Type} (env : BatchEnv α)
    (happ : ∀ n, env.appendId n ≠ "") (chunk : List (Pending α)) :
    ∀ (ids : List String) (counter : Nat) (p : Pending α), p ∈ chunk →
    p.index < ids.length →
    (setChunkIds env chunk ids counter).getD p.index "" ≠ "" := by
  induction chunk with
  | nil => intro ids counter p h; exact absurd h (List.not_mem_nil _)
  | cons q qs ih =>
    intro ids counter p hmem hi
    rw [setChunkIds]
    rcases List.mem_cons.mp hmem with heq | htail
    · subst heq
      rw [if_neg (happ counter)]
      apply setChunkIds_keeps
      rw [getD_set_get, if_pos ⟨rfl, hi⟩]
      exact happ counter
    · apply ih _ _ _ htail
      by_cases hid : env.appendId counter = ""
      · rw [if_pos hid]; exact hi
      · rw [if_neg hid, List.length_set]; exact hi

theorem appendChunks_fst_length {α : Type} (env : BatchEnv α)
    (chs : List (List (Pending α))) :
    ∀ (ids : List String) (c a : Nat),
    ((appendChunks env false chs ids c a).1).length = ids.length := by
  induction chs with
  | nil => intro ids c a; rfl
  | cons ch rest ih =>
    intro ids c a
    rw [appendChunks, if_neg (by simp)]
    rw [ih, setChunkIds_length]

theorem appendChunks_keeps {α : Type} (env : BatchEnv α)
    (chs : List (List (Pending α))) :
    ∀ (ids : List String) (c a i : Nat), ids.getD i "" ≠ "" →
    ((appendChunks env false chs ids c a).1).getD i "" ≠ "" := by
  induction chs with
  | nil => intro ids c a i h; exact h
  | cons ch rest ih =>
    intro ids c a i h
    rw [appendChunks, if_neg (by simp)]
    exact ih _ _ _ _ (setChunkIds_keeps env ch ids c i h)

theorem appendChunks_covers {α : Type} (env : BatchEnv α)
    (happ : ∀ n, env.appendId n ≠ "") (chs : List (List (Pending α))) :
    ∀ (ids : List String) (c a : Nat) (p : Pending α), p ∈ chs.flatten →
    p.index < ids.length →
    ((appendChunks env false chs ids c a).1).getD p.index "" ≠ "" := by
  induction chs with
  | nil => intro ids c a p h; exact absurd h (List.not_mem_nil _)
  | cons ch rest ih =>
    intro ids c a p hmem hi
    rw [appendChunks, if_neg (by simp)]
    rw [List.flatten_cons, List.mem_append] at hmem
    rcases hmem with hch | hrest
    · apply appendChunks_keeps
      exact setChunkIds_covers env happ ch ids c p hch hi
    · apply ih _ _ _ _ hrest
      rw [setChunkIds_length]
      exact hi

theorem appendChunks_count {α : Type} (env : BatchEnv α)
    (chs : List (List (Pending α))) :
    ∀ (ids : List String) (c a : Nat),
    (appendChunks env false chs ids c a).2 = a + chs.flatten.length := by
  induction chs with
  | nil => intro ids c a; simp [appendChunks]
  | cons ch rest ih =>
    intro ids c a
    rw [appendChunks, if_neg (by simp), ih]
    simp [List.flatten_cons]
    omega

theorem chunksOfAux_flatten {α : Type} (n : Nat) (hn : n ≠ 0) (fuel : Nat) :
    ∀ l : List α, l.length ≤ fuel → (chunksOfAux n fuel l).flatten = l := by
  induction fuel with
  | zero =>
    intro l hl
    have hnil : l = [] := List.eq_nil_of_length_eq_zero (Nat.le_zero.mp hl)
    subst hnil
    rfl
  | succ f ih =>
    intro l hl
    cases l with
    | nil => rfl
    | cons x xs =>
      rw [chunksOfAux, List.flatten_cons]
      rw [ih ((x :: xs).drop n) (by
        simp only [List.length_cons] at hl
        simp only [List.length_drop, List.length_cons]
        omega)]
      exact List.take_append_drop n (x :: xs)

theorem chunksOf_flatten {α : Type} (n : Nat) (hn : n ≠ 0) (l : List α) :
    (chunksOf n l).flatten = l := by
  rw [chunksOf, if_neg hn]
  exact chunksOfAux_flatten n hn l.length l (Nat.le_refl _)

/-- C3: with `N` empty slots and `M > N` pending records, no cancellation and
no write failures, exactly `N` records are written by filling empty slots,
exactly `M − N` by appending, and the returned id array has length `M` with a
non-empty id at every input position.  `happ`/`hslots` say the datastore hands
out non-empty identifiers. -/
theorem addRecordsInBatches_two_phase {α : Type} (records : List α)
    (batchSize : Nat) (slots : List String) (env : BatchEnv α)
    (hb : batchSize ≠ 0)
    (hM : slots.length < records.length)
    (hnf : ∀ s p, env.writeFails s p = false)
    (happ : ∀ n, env.appendId n ≠ "")
    (hslots : ∀ s ∈ slots, s ≠ "") :
    (addRecordsInBatches records batchSize slots env false).filledCount
      = slots.length ∧
    (addRecordsInBatches records batchSize slots env false).appendedCount
      = records.length - slots.length ∧
    (addRecordsInBatches records batchSize slots env false).recordIds.length
      = records.length ∧
    ∀ i < records.length,
      (addRecordsInBatches records batchSize slots env false).recordIds.getD i ""
        ≠ "" := by
  have hNle : slots.length ≤ records.length := Nat.le_of_lt hM
  have hpendlen :
      (records.enum.map (fun p => (⟨p.1, p.2⟩ : Pending α))).length
        = records.length := by simp
  have hpendidx :
      (records.enum.map (fun p => (⟨p.1, p.2⟩ : Pending α))).map Pending.index
        = List.range records.length := by
    rw [List.map_map]
    have hcomp : (Pending.index ∘ fun p : Nat × α => (⟨p.1, p.2⟩ : Pending α))
        = Prod.fst := rfl
    rw [hcomp, List.enum_map_fst]
  have hpendget : ∀ i (h : i < records.length),
      ((records.enum.map (fun p => (⟨p.1, p.2⟩ : Pending α))).get
        ⟨i, by rw [hpendlen]; exact h⟩).index = i := by
    intro i h
    simp [List.getElem_enum]
  by_cases hs0 : slots = []
  · -- no empty slots: everything is appended
    subst hs0
    have hphase1 : fillPhase (records.enum.map (fun p => (⟨p.1, p.2⟩ : Pending α)))
        (List.replicate records.length "") [] env false
        = ⟨0, records.enum.map (fun p => (⟨p.1, p.2⟩ : Pending α)),
            List.replicate records.length "", []⟩ := by
      rw [fillPhase, if_neg (by simp)]
    have hM0 : 0 < records.length := by simpa using hM
    have hne : (records.enum.map (fun p => (⟨p.1, p.2⟩ : Pending α))) ≠ [] := by
      intro h
      rw [h] at hpendlen
      simp at hpendlen
      omega
    have hres : addRecordsInBatches records batchSize [] env false
        = ⟨0,
            (appendChunks env false
              (chunksOf batchSize (records.enum.map (fun p => (⟨p.1, p.2⟩ : Pending α))))
              (List.replicate records.length "") 0 0).2,
            (appendChunks env false
              (chunksOf batchSize (records.enum.map (fun p => (⟨p.1, p.2⟩ : Pending α))))
              (List.replicate records.length "") 0 0).1,
            []⟩ := by
      rw [addRecordsInBatches]
      simp only [hphase1]
      rw [appendPhase]
      rw [if_neg (by simp [List.isEmpty_iff, hne])]
    rw [hres]
    refine ⟨rfl, ?_, ?_, ?_⟩
    · rw [appendChunks_count, chunksOf_flatten batchSize hb, hpendlen]
      simp
    · rw [appendChunks_fst_length, List.length_replicate]
    · intro i hi
      have hp := hpendget i hi
      rw [← hp]
      apply appendChunks_covers env happ
      · rw [chunksOf_flatten batchSize hb]
        exact List.get_mem _ _ _
      · rw [hp, List.length_replicate]
        exact hi
  · -- slots available: fill first, then append the rest
    have htake : slots.take
        (records.enum.map (fun p => (⟨p.1, p.2⟩ : Pending α))).length = slots :=
      List.take_of_length_le (by rw [hpendlen]; exact hNle)
    have hdropslots : slots.drop
        (records.enum.map (fun p => (⟨p.1, p.2⟩ : Pending α))).length = [] :=
      List.drop_eq_nil_of_le (by rw [hpendlen]; exact hNle)
    have hfill := fillEmptyRecords_no_fail slots env.writeFails hnf
      (records.enum.map (fun p => (⟨p.1, p.2⟩ : Pending α)))
    have hmin : min slots.length
        (records.enum.map (fun p => (⟨p.1, p.2⟩ : Pending α))).length
        = slots.length := by
      rw [hpendlen]
      exact Nat.min_eq_left hNle
    have hpairseq : ((records.enum.map
          (fun p => (⟨p.1, p.2⟩ : Pending α))).take slots.length).map Pending.index
        = List.range slots.length := by
      rw [List.map_take, hpendidx]
      simp [List.take_range, Nat.min_eq_left hNle]
    have hphase1 : fillPhase (records.enum.map (fun p => (⟨p.1, p.2⟩ : Pending α)))
        (List.replicate records.length "") slots env false
        = ⟨slots.length,
            (records.enum.map (fun p => (⟨p.1, p.2⟩ : Pending α))).drop slots.length,
            ((List.range slots.length).zip slots).foldl
              (fun acc pr => acc.set pr.1 pr.2) (List.replicate records.length ""),
            []⟩ := by
      rw [fillPhase, if_pos hs0, htake, if_pos hs0, hfill, hdropslots]
      simp [hmin, hpairseq]
      exact hNle
    have hremlen : ((records.enum.map
          (fun p => (⟨p.1, p.2⟩ : Pending α))).drop slots.length).length
        = records.length - slots.length := by
      rw [List.length_drop, hpendlen]
    have hremne : (records.enum.map
          (fun p => (⟨p.1, p.2⟩ : Pending α))).drop slots.length ≠ [] := by
      intro h
      rw [h] at hremlen
      simp at hremlen
      omega
    have hids1len : (((List.range slots.length).zip slots).foldl
          (fun acc pr => acc.set pr.1 pr.2) (List.replicate records.length "")).length
        = records.length := by
      rw [foldl_set_length, List.length_replicate]
    have hres : addRecordsInBatches records batchSize slots env false
        = ⟨slots.length,
            (appendChunks env false (chunksOf batchSize ((records.enum.map
                (fun p => (⟨p.1, p.2⟩ : Pending α))).drop slots.length))
              (((List.range slots.length).zip slots).foldl
                (fun acc pr => acc.set pr.1 pr.2)
                (List.replicate records.length "")) 0 0).2,
            (appendChunks env false (chunksOf batchSize ((records.enum.map
                (fun p => (⟨p.1, p.2⟩ : Pending α))).drop slots.length))
              (((List.range slots.length).zip slots).foldl
                (fun acc pr => acc.set pr.1 pr.2)
                (List.replicate records.length "")) 0 0).1,
            []⟩ := by
      rw [addRecordsInBatches, hphase1, appendPhase]
      rw [if_neg (by simp [List.isEmpty_iff, hremne])]
    rw [hres]
    have hvals : ∀ pr ∈ (List.range slots.length).zip slots, pr.2 ≠ "" := by
      intro pr hpr
      exact hslots pr.2 (List.of_mem_zip hpr).2
    refine ⟨rfl, ?_, ?_, ?_⟩
    · rw [appendChunks_count, chunksOf_flatten batchSize hb, hremlen]
      simp
    · rw [appendChunks_fst_length, hids1len]
    · intro i hi
      by_cases hiN : i < slots.length
      · -- position filled in phase 1: already non-empty, phase 2 keeps it
        apply appendChunks_keeps
        apply foldl_set_covers _ _ _ (slots.getD i "")
        · have hzlen : i < ((List.range slots.length).zip slots).length := by
            simp only [List.length_zip, List.length_range, Nat.min_self]
            exact hiN
          have hz : ((List.range slots.length).zip slots).get ⟨i, hzlen⟩
              = (i, slots.getD i "") := by
            rw [List.get_eq_getElem]
            rw [List.getElem_zip]
            rw [List.getD_eq_getElem slots "" hiN]
            simp
          have hzm : ((List.range slots.length).zip slots).get ⟨i, hzlen⟩
              ∈ (List.range slots.length).zip slots := List.get_mem _ _ _
          exact hz ▸ hzm
        · rw [List.length_replicate]
          exact hi
        · rw [List.getD_eq_getElem slots "" hiN]
          exact hslots _ (List.getElem_mem hiN)
        · exact hvals
      · -- position appended in phase 2
        have hgeN : slots.length ≤ i := Nat.le_of_not_lt hiN
        have hp := hpendget i hi
        rw [← hp]
        apply appendChunks_covers env happ
        · rw [chunksOf_flatten batchSize hb]
          refine List.mem_iff_getElem.mpr ⟨i - slots.length, ?_, ?_⟩
          · rw [List.length_drop, hpendlen]
            omega
          · simp only [List.get_eq_getElem, List.getElem_drop]
            congr 1
            omega
        · rw [hp, hids1len]
          exact hi

/-- A concrete write environment with no failures for the C3 witness. -/
def env3w : BatchEnv Nat :=
  ⟨fun _ _ => false, fun _ => "appendedRow"⟩

/-- Witness for C3: 1 slot, 3 records — 1 filled, 2 appended, no gaps. -/
theorem addRecordsInBatches_two_phase_witness :
    (["s1"] : List String).length < ([100, 101, 102] : List Nat).length ∧
    ((addRecordsInBatches [100, 101, 102] 50 ["s1"] env3w false).filledCount
        = (["s1"] : List String).length ∧
      (addRecordsInBatches [100, 101, 102] 50 ["s1"] env3w false).appendedCount
        = ([100, 101, 102] : List Nat).length - (["s1"] : List String).length ∧
      (addRecordsInBatches [100, 101, 102] 50 ["s1"] env3w false).recordIds.length
        = ([100, 101, 102] : List Nat).length ∧
      ∀ i < ([100, 101, 102] : List Nat).length,
        (addRecordsInBatches [100, 101, 102] 50 ["s1"] env3w false).recordIds.getD
          i "" ≠ "") :=
  ⟨by decide,
    addRecordsInBatches_two_phase [100, 101, 102] 50 ["s1"] env3w
      (by decide) (by decide) (fun _ _ => rfl)
      (fun n => by show "appendedRow" ≠ ""; decide) (by decide)⟩

/-! ## Model of JavaScript runtime values

The commerce-detection functions receive data that the host already JSON
decoded.  `JSVal` models those values; numbers are restricted to the integers
the claims exercise.  Object field reads take the first matching key, and the
constructions below keep keys unique, matching later-spread-wins and
last-duplicate-wins of the host. -/

inductive JSVal : Type where
  | undefined : JSVal
  | null : JSVal
  | bool : Bool → JSVal
  | num : Int → JSVal
  | str : String → JSVal
  | arr : List JSVal → JSVal
  | obj : List (String × JSVal) → JSVal

/-- JavaScript truthiness (`Boolean(x)`); `undefined`, `null`, `false`, `0`
and `""` are falsy. -/
def truthy : JSVal → Bool
  | .undefined => false
  | .null => false
  | .bool b => b
  | .num n => decide (n ≠ 0)
  | .str s => decide (s ≠ "")
  | .arr _ => true
  | .obj _ => true

/-- `typeof x === 'object'` for the non-null values the guards accept. -/
def isObjectLike : JSVal → Bool
  | .obj _ => true
  | .arr _ => true
  | _ => false

def objFind : List (String × JSVal) → String → JSVal
  | [], _ => .undefined
  | (k, v) :: rest, key => if k = key then v else objFind rest key

/-- Property read `v[key]`; non-objects yield `undefined` (also models the
optional chaining `v?.key` the source uses, since reads on `undefined`/`null`
only occur behind such guards). -/
def jsGet (v : JSVal) (key : String) : JSVal :=
  match v with
  | .obj fields => objFind fields key
  | _ => .undefined

/-- The fields `{...v}` contributes: object fields, or index-keyed entries for
an array. -/
def spreadFields (v : JSVal) : List (String × JSVal) :=
  match v with
  | .obj fields => fields
  | .arr elems => elems.enum.map (fun p => (toString p.1, p.2))
  | _ => []

/-- `a ?? b`. -/
def jsCoalesce (a b : JSVal) : JSVal :=
  match a with
  | .undefined => b
  | .null => b
  | _ => a

/-- `a || b`. -/
def jsOr (a b : JSVal) : JSVal :=
  if truthy a then a else b

/-- `String(x)` for the value shapes the detection reads (array
stringification is not exercised by any claim). -/
def jsToString : JSVal → String
  | .undefined => "undefined"
  | .null => "null"
  | .bool b => if b then "true" else "false"
  | .num n => toString n
  | .str s => s
  | .arr _ => ""
  | .obj _ => "[object Object]"

def digitsVal (ds : List Char) : Nat :=
  ds.foldl (fun a c => a * 10 + (c.toNat - 48)) 0

/-- `Number(s)` for a string, restricted to the integer literals the claims
exercise (`none` models `NaN`). -/
def strToJsNumber (s : String) : Option Int :=
  match (trimStr s).data with
  | [] => some 0
  | '-' :: ds => if ds ≠ [] && ds.all Char.isDigit then
      some (-(digitsVal ds : Int)) else none
  | ds => if ds.all Char.isDigit then some ((digitsVal ds : Int)) else none

/-- `Number(x)` (`none` models `NaN`). -/
def jsToNumber : JSVal → Option Int
  | .num n => some n
  | .bool b => some (if b then 1 else 0)
  | .null => some 0
  | .undefined => none
  | .str s => strToJsNumber s
  | .arr _ => none
  | .obj _ => none

/-! ## IEEE-754 double rounding of wide integers

`JSON.parse` parses integer literals into doubles; magnitudes of 2^53 or more
are rounded to the nearest representable double (ties to even).  This is the
precision loss `extractProductIdFromJson` exists to avoid. -/

def natLog2Aux : Nat → Nat → Nat
  | 0, _ => 0
  | fuel + 1, n => if n ≥ 2 then natLog2Aux fuel (n / 2) + 1 else 0

/-- Floor of the base-2 logarithm (kernel-computable). -/
def natLog2 (n : Nat) : Nat :=
  natLog2Aux n n

def float64Round (n : Nat) : Nat :=
  if n < 2 ^ 53 then n
  else
    let ulp := 2 ^ (natLog2 n - 52)
    let q := n / ulp
    let r := n % ulp
    if 2 * r < ulp then q * ulp
    else if 2 * r > ulp then (q + 1) * ulp
    else if q % 2 = 0 then q * ulp else (q + 1) * ulp

def float64RoundInt (n : Int) : Int :=
  if n < 0 then -(float64Round n.natAbs : Int) else (float64Round n.natAbs : Int)

/-! ## Model of the host `JSON.parse`

A recursive-descent parser over `JSVal`, restricted to the grammar the claims
exercise: objects, arrays, strings with simple escapes, integer literals
(rounded through `float64Round`, as the host parses numbers into doubles),
`true`, `false`, `null`.  Duplicate object keys keep the last occurrence, as
in the host. -/

def jsonWs (c : Char) : Bool :=
  c = ' ' || c = '\t' || c = '\n' || c = '\r'

def skipWs (cs : List Char) : List Char :=
  cs.dropWhile jsonWs

def parseStrAux : List Char → List Char → Option (String × List Char)
  | [], _ => none
  | '"' :: rest, acc => some (String.mk acc.reverse, rest)
  | '\\' :: e :: rest, acc =>
    match e with
    | '"' => parseStrAux rest ('"' :: acc)
    | '\\' => parseStrAux rest ('\\' :: acc)
    | '/' => parseStrAux rest ('/' :: acc)
    | 'n' => parseStrAux rest ('\n' :: acc)
    | 't' => parseStrAux rest ('\t' :: acc)
    | 'r' => parseStrAux rest ('\r' :: acc)
    | 'b' => parseStrAux rest (Char.ofNat 8 :: acc)
    | 'f' => parseStrAux rest (Char.ofNat 12 :: acc)
    | _ => none
  | c :: rest, acc => parseStrAux rest (c :: acc)

def parseNatNum (cs : List Char) : Option (Nat × List Char) :=
  match cs.takeWhile Char.isDigit with
  | [] => none
  | ds =>
    match cs.drop ds.length with
    | '.' :: _ => none
    | 'e' :: _ => none
    | 'E' :: _ => none
    | rest => some (float64Round (digitsVal ds), rest)

def parseNumLit (cs : List Char) : Option (Int × List Char) :=
  match cs with
  | '-' :: rest => (parseNatNum rest).map (fun p => (-(p.1 : Int), p.2))
  | _ => (parseNatNum cs).map (fun p => ((p.1 : Int), p.2))

mutual

def parseVal : Nat → List Char → Option (JSVal × List Char)
  | 0, _ => none
  | fuel + 1, cs =>
    match skipWs cs with
    | '{' :: rest => parseMembers fuel (skipWs rest) []
    | '[' :: rest => parseElems fuel (skipWs rest) []
    | '"' :: rest => (parseStrAux rest []).map (fun p => (.str p.1, p.2))
    | 't' :: 'r' :: 'u' :: 'e' :: rest => some (.bool true, rest)
    | 'f' :: 'a' :: 'l' :: 's' :: 'e' :: rest => some (.bool false, rest)
    | 'n' :: 'u' :: 'l' :: 'l' :: rest => some (.null, rest)
    | cs2 => (parseNumLit cs2).map (fun p => (.num p.1, p.2))

def parseMembers : Nat → List Char → List (String × JSVal) →
    Option (JSVal × List Char)
  | 0, _, _ => none
  | fuel + 1, cs, acc =>
    match cs with
    | '}' :: rest => some (.obj acc.reverse, rest)
    | '"' :: rest =>
      match parseStrAux rest [] with
      | none => none
      | some (key, rest2) =>
        match skipWs rest2 with
        | ':' :: rest3 =>
          match parseVal fuel rest3 with
          | none => none
          | some (v, rest4) =>
            match skipWs rest4 with
            | ',' :: rest5 =>
              parseMembers fuel (skipWs rest5)
                ((key, v) :: acc.filter (fun kv => kv.1 ≠ key))
            | '}' :: rest5 =>
              some (.obj ((key, v) :: acc.filter (fun kv => kv.1 ≠ key)).reverse,
                rest5)
            | _ => none
        | _ => none
    | _ => none

def parseElems : Nat → List Char → List JSVal → Option (JSVal × List Char)
  | 0, _, _ => none
  | fuel + 1, cs, acc =>
    match cs with
    | ']' :: rest => some (.arr acc.reverse, rest)
    | _ =>
      match parseVal fuel cs with
      | none => none
      | some (v, rest) =>
        match skipWs rest with
        | ',' :: rest2 => parseElems fuel (skipWs rest2) (v :: acc)
        | ']' :: rest2 => some (.arr (v :: acc).reverse, rest2)
        | _ => none

end

/-- Model of `JSON.parse(s)`: parse one value, require full consumption. -/
def jsonParse (s : String) : Option JSVal :=
  match parseVal (2 * s.data.length + 2) s.data with
  | some (v, rest) => if skipWs rest = [] then some v else none
  | none => none

/-- `safeJsonParse` (src/services/commerceDetection.ts:69-76): only parses
non-empty strings, returns `null` (here `none`) on any failure. -/
def safeJsonParse (raw : JSVal) : Option JSVal :=
  match raw with
  | .str s => if s = "" then none else jsonParse s
  | _ => none

/-! ## `extractProductIdFromJson` (src/services/commerceDetection.ts:57-61)

Model of the regex search `/"product_id"\s*:\s*(\d{15,})/`: scan left to
right; at each position try to match the literal key, optional whitespace, a
colon, optional whitespace, and a maximal digit run of 15 or more digits. -/

def matchPidAt (cs : List Char) : Option (List Char) :=
  if ("\"product_id\"".data).isPrefixOf cs then
    match (cs.drop ("\"product_id\"".data).length).dropWhile Char.isWhitespace with
    | ':' :: cs2 =>
      if ((cs2.dropWhile Char.isWhitespace).takeWhile Char.isDigit).length ≥ 15 then
        some ((cs2.dropWhile Char.isWhitespace).takeWhile Char.isDigit)
      else none
    | _ => none
  else none

def scanPid : List Char → Option (List Char)
  | [] => none
  | c :: cs =>
    match matchPidAt (c :: cs) with
    | some ds => some ds
    | none => scanPid cs

def extractProductIdFromJson (jsonStr : String) : Option String :=
  (scanPid jsonStr.data).map (fun ds => String.mk ds)

/-! ## Commerce detection (src/services/commerceDetection.ts) -/

structure CommerceProduct where
  productId : Option String
  title : Option String
  price : Option Int
  currency : Option String
  link : Option String
  source : Option String
  adLabel : Option String
deriving DecidableEq, Repr

structure CommerceResult where
  isCommerce : Bool
  reasons : List String
  products : List CommerceProduct
  productsTotal : Nat
  firstProduct : Option CommerceProduct
  productsText : String
deriving DecidableEq, Repr

/-- `parsePrice` (lines 94-98). -/
def parsePrice (raw : JSVal) : Option Int :=
  match raw with
  | .undefined => none
  | .null => none
  | v => jsToNumber v

/-- `toOptionalString` (lines 106-108): `val ? String(val) : undefined`. -/
def toOptionalString (val : JSVal) : Option String :=
  if truthy val then some (jsToString val) else none

/-- JavaScript truthiness of an optional string (an absent field or `""` is
falsy). -/
def optTruthy : Option String → Bool
  | some s => decide (s ≠ "")
  | none => false

/-- `normalizeProduct` (lines 182-201). -/
def normalizeProduct (raw : JSVal) : CommerceProduct :=
  { productId := toOptionalString (jsCoalesce (jsGet raw "product_id") (jsGet raw "id")),
    title := toOptionalString (jsCoalesce (jsGet raw "title")
      (jsCoalesce (jsGet raw "elastic_title") (jsGet raw "keyword"))),
    price := parsePrice (jsCoalesce (jsGet raw "price")
      (jsCoalesce (jsGet raw "sale_price") (jsGet raw "market_price"))),
    currency := toOptionalString (jsCoalesce (jsGet raw "currency")
      (jsGet (jsGet raw "currency_format") "currency_symbol")),
    link := toOptionalString (jsCoalesce (jsGet raw "schema")
      (jsCoalesce (jsGet raw "detail_url")
        (jsCoalesce (jsGet raw "final_url") (jsGet raw "short_url")))),
    source := toOptionalString (jsCoalesce (jsGet raw "source") (jsGet raw "source_from")),
    adLabel := toOptionalString (jsCoalesce (jsGet raw "ad_label_name")
      (jsGet (jsGet raw "extra") "ad_label_name")) }

/-- The array the anchor `extra` field contributes (lines 216-225): a JSON
string is parsed, an object is wrapped into a one-element array. -/
def anchorExtraList (extraRaw : JSVal) : List JSVal :=
  match extraRaw with
  | .str s =>
    match safeJsonParse (.str s) with
    | some (.arr elems) => elems
    | some (.obj fields) => [.obj fields]
    | _ => []
  | .arr elems => elems
  | .obj fields => [.obj fields]
  | _ => []

/-- The merged product payload of one anchor item (lines 229-246):
`merged = {...item}`, then a nested JSON-string `extra` is expanded under it,
and a wide `product_id` extracted from the raw text overrides the parsed
(rounded) one. -/
def mergeWithExtra (item extraV : JSVal) : JSVal :=
  match extraV with
  | .str s =>
    match safeJsonParse (.str s) with
    | some nested =>
      if truthy nested && isObjectLike nested then
        match extractProductIdFromJson s with
        | some pid =>
          .obj (("product_id", .str pid) :: (spreadFields item ++ spreadFields nested))
        | none => .obj (spreadFields item ++ spreadFields nested)
      else .obj (spreadFields item)
    | none => .obj (spreadFields item)
  | _ =>
    if truthy extraV && isObjectLike extraV then
      .obj (spreadFields item ++ spreadFields extraV)
    else .obj (spreadFields item)

def mergeItemExtra (item : JSVal) : JSVal :=
  mergeWithExtra item (jsGet item "extra")

/-- The filter at lines 249-251 and 270-272: keep a product that has an id, a
title or a link. -/
def keepProduct (p : CommerceProduct) : Bool :=
  optTruthy p.productId || optTruthy p.title || optTruthy p.link

/-- `parseAnchorProducts` (lines 214-255). -/
def parseAnchorProducts (anchor : JSVal) : List CommerceProduct :=
  (anchorExtraList (jsGet anchor "extra")).foldr
    (fun item out =>
      if truthy item && isObjectLike item then
        if keepProduct (normalizeProduct (mergeItemExtra item)) then
          normalizeProduct (mergeItemExtra item) :: out
        else out
      else out) []

/-- `parseProductList` (lines 263-273). -/
def parseProductList (list : JSVal) : List CommerceProduct :=
  match list with
  | .arr elems =>
    elems.foldr
      (fun item out =>
        if truthy item && isObjectLike item then
          if keepProduct (normalizeProduct item) then normalizeProduct item :: out
          else out
        else out) []
  | _ => []

/-- The dedup key of `dedupeProducts` (line 289):
`p.productId || (p.title || '') + '#' + idx`. -/
def dedupKey (p : CommerceProduct) (idx : Nat) : String :=
  match p.productId with
  | some s => if s ≠ "" then s else (p.title.getD "") ++ "#" ++ toString idx
  | none => (p.title.getD "") ++ "#" ++ toString idx

def dedupeAux : List CommerceProduct → Nat → List String → List CommerceProduct
  | [], _, _ => []
  | p :: ps, idx, seen =>
    if seen.contains (dedupKey p idx) then dedupeAux ps (idx + 1) seen
    else p :: dedupeAux ps (idx + 1) (dedupKey p idx :: seen)

/-- `dedupeProducts` (lines 286-293): first occurrence per key wins; the
insertion-ordered map values are the kept products in order. -/
def dedupeProducts (products : List CommerceProduct) : List CommerceProduct :=
  dedupeAux products 0 []

/-- Substring containment, model of `/shop|product|commerce/.test` and
`String.prototype.includes`. -/
def listContainsSub (pat : List Char) : List Char → Bool
  | [] => pat.isEmpty
  | c :: rest => pat.isPrefixOf (c :: rest) || listContainsSub pat rest

def containsSub (s pat : String) : Bool :=
  listContainsSub pat.data s.data

/-- `formatProductSummary` (lines 160-169). -/
def formatProductSummary (product : CommerceProduct) (index : Nat) : String :=
  String.intercalate " "
    (["[" ++ toString index ++ "]"]
      ++ (match product.title with
          | some t => if t ≠ "" then [t] else []
          | none => [])
      ++ (match product.price, product.currency with
          | some pr, some cu =>
            if pr > 0 && cu ≠ "" then ["- " ++ cu ++ toString pr] else []
          | _, _ => [])
      ++ (match product.source with
          | some so => if so ≠ "" then ["(" ++ so ++ ")"] else []
          | none => []))

/-- `Array.from(new Set(xs))`: deduplicate keeping the first occurrence. -/
def eraseDupsFirstAux : List String → List String → List String
  | [], _ => []
  | x :: xs, seen =>
    if seen.contains x then eraseDupsFirstAux xs seen
    else x :: eraseDupsFirstAux xs (x :: seen)

def eraseDupsFirst (l : List String) : List String :=
  eraseDupsFirstAux l []

/-- The anchor loop of `commerceFromAweme` (lines 359-370): collect one reason
per commerce anchor and the parsed products, in iteration order. -/
def anchorScan : List JSVal → List String × List CommerceProduct
  | [] => ([], [])
  | anchor :: rest =>
    if containsSub (lowerStr (jsToString (jsOr (jsGet anchor "component_key") (.str "")))) "shop"
        || containsSub (lowerStr (jsToString (jsOr (jsGet anchor "component_key") (.str "")))) "product"
        || containsSub (lowerStr (jsToString (jsOr (jsGet anchor "component_key") (.str "")))) "commerce" then
      ((if truthy (jsGet anchor "component_key") then
          "anchor:" ++ jsToString (jsGet anchor "component_key")
        else "anchor") :: (anchorScan rest).1,
        parseAnchorProducts anchor ++ (anchorScan rest).2)
    else anchorScan rest

/-- The `anchors`/`anchor_info` selection (lines 354-358). -/
def awemeAnchors (v : JSVal) : List JSVal :=
  match jsGet v "anchors" with
  | .arr elems => elems
  | _ =>
    match jsGet v "anchor_info" with
    | .arr elems => elems
    | _ => []

/-- The OR of the three boolean commerce flags (lines 394-396). -/
def commerceBoolFlags (v : JSVal) : Bool :=
  truthy (jsGet v "has_commerce_goods") || truthy (jsGet v "existed_commerce_goods")
    || truthy (jsGet v "ecommerce_goods")

/-- `commerce_info` with the `|| {}` default (line 400). -/
def commerceInfoOf (v : JSVal) : JSVal :=
  jsOr (jsGet v "commerce_info") (.obj [])

/-- The commission-text test (lines 401-403). -/
def commerceCommission (v : JSVal) : Bool :=
  containsSub
    (lowerStr (jsToString (jsOr (jsGet (commerceInfoOf v) "bc_label_test_text") (.str ""))))
    "commission"

/-- The branded-content test (lines 402-405). -/
def commerceBranded (v : JSVal) : Bool :=
  match jsGet (commerceInfoOf v) "branded_content_type" with
  | .num n => decide (n > 0)
  | bv => truthy bv

/-- The commission/branded marker of the spec (`commerce_info` dimension). -/
def commerceMarker (v : JSVal) : Bool :=
  commerceCommission v || commerceBranded v

/-- The reasons list built during `commerceFromAweme`, in push order. -/
def commerceReasonsRaw (v : JSVal) : List String :=
  (anchorScan (awemeAnchors v)).1
    ++ (if parseProductList (jsGet v "bottom_products") ≠ [] then ["bottom_products"] else [])
    ++ (if parseProductList (jsGet v "products_info") ≠ [] then ["products_info"] else [])
    ++ (if parseProductList (jsGet v "right_products") ≠ [] then ["right_products"] else [])
    ++ (if commerceBoolFlags v then ["commerce_goods_flag"] else [])
    ++ (if commerceCommission v then ["commerce_info_commission"] else [])
    ++ (if commerceBranded v then
        ["commerce_info_branded_type:"
          ++ jsToString (jsGet (commerceInfoOf v) "branded_content_type")] else [])

/-- The products list accumulated during `commerceFromAweme` (pushing an empty
product list is a no-op, so the guards at lines 374-391 only affect the
reasons). -/
def commerceProductsRaw (v : JSVal) : List CommerceProduct :=
  (anchorScan (awemeAnchors v)).2
    ++ parseProductList (jsGet v "bottom_products")
    ++ parseProductList (jsGet v "products_info")
    ++ parseProductList (jsGet v "right_products")

/-- `commerceFromAweme` (lines 349-430). -/
def commerceFromAweme (v : JSVal) : CommerceResult :=
  { isCommerce := decide (dedupeProducts (commerceProductsRaw v) ≠ [])
      || commerceBoolFlags v || commerceCommission v || commerceBranded v
      || decide (commerceReasonsRaw v ≠ []),
    reasons := eraseDupsFirst (commerceReasonsRaw v),
    products := dedupeProducts (commerceProductsRaw v),
    productsTotal := (dedupeProducts (commerceProductsRaw v)).length,
    firstProduct := (dedupeProducts (commerceProductsRaw v)).head?,
    productsText := String.intercalate "\n"
      ((dedupeProducts (commerceProductsRaw v)).enum.map
        (fun p => formatProductSummary p.2 (p.1 + 1))) }

/-! ### C1: the isCommerce equivalence -/

theorem eraseDupsFirst_eq_nil (l : List String) :
    eraseDupsFirst l = [] ↔ l = [] := by
  cases l with
  | nil => simp [eraseDupsFirst, eraseDupsFirstAux]
  | cons x xs => simp [eraseDupsFirst, eraseDupsFirstAux]

/-- C1: for every raw item, `isCommerce` is true if and only if the
deduplicated products list is non-empty, or one of the three boolean commerce
flags is set, or the commission/branded marker is present, or the reasons list
is non-empty — an equivalence in both directions. -/
theorem commerceFromAweme_isCommerce_iff (v : JSVal) :
    (commerceFromAweme v).isCommerce = true ↔
      ((commerceFromAweme v).products ≠ [] ∨ commerceBoolFlags v = true
        ∨ commerceMarker v = true ∨ (commerceFromAweme v).reasons ≠ []) := by
  simp only [commerceFromAweme, commerceMarker, Bool.or_eq_true,
    decide_eq_true_iff, ne_eq, eraseDupsFirst_eq_nil]
  tauto

/-! ### C9: dedup idempotence -/

/-- A product carrying only an id that textually collides with a fallback
`title#index` key. -/
def p9A : CommerceProduct := ⟨some "t#2", none, none, none, none, none, none⟩

/-- A product with a plain id, occurring twice in the C9 counterexample. -/
def p9B : CommerceProduct := ⟨some "x", none, none, none, none, none, none⟩

/-- An id-less product deduplicated by its `title#index` fallback key. -/
def p9D : CommerceProduct := ⟨none, some "t", none, none, none, none, none⟩

/-- C9 counterexample: `dedupeProducts` is not idempotent.  On
`[p9A, p9B, p9B, p9D]` the first pass keeps `[p9A, p9B, p9D]`; in the second
pass `p9D` has moved from index 3 to index 2, its fallback key becomes `t#2`,
which collides with `p9A`'s productId, so `p9D` is dropped. -/
theorem dedupeProducts_not_idempotent :
    ¬ (dedupeProducts (dedupeProducts [p9A, p9B, p9B, p9D])
        = dedupeProducts [p9A, p9B, p9B, p9D]) := by decide

/-- The keys `dedupeProducts` computes for a list, each at its own index. -/
def dedupKeys : List CommerceProduct → Nat → List String
  | [], _ => []
  | p :: ps, idx => dedupKey p idx :: dedupKeys ps (idx + 1)

theorem dedupeAux_eq_self (l : List CommerceProduct) :
    ∀ (idx : Nat) (seen : List String), (dedupKeys l idx).Nodup →
    (∀ k ∈ dedupKeys l idx, seen.contains k = false) →
    dedupeAux l idx seen = l := by
  induction l with
  | nil => intro idx seen _ _; rfl
  | cons p ps ih =>
    intro idx seen hnodup hseen
    rw [dedupeAux]
    rw [hseen (dedupKey p idx) (by rw [dedupKeys]; exact List.mem_cons_self _ _)]
    simp only [Bool.false_eq_true, if_false]
    congr 1
    apply ih
    · rw [dedupKeys] at hnodup
      exact hnodup.of_cons
    · intro k hk
      rw [List.contains_cons]
      have hkne : k ≠ dedupKey p idx := by
        rw [dedupKeys] at hnodup
        intro heq
        exact (List.nodup_cons.mp hnodup).1 (heq ▸ hk)
      have hks : seen.contains k = false :=
        hseen k (by rw [dedupKeys]; exact List.mem_cons_of_mem _ hk)
      simp [hks, hkne]
      intro hm
      have hc : seen.contains k = true := List.elem_eq_true_of_mem hm
      rw [hks] at hc
      exact Bool.noConfusion hc

/-- C9 amended: `dedupeProducts` is idempotent on every list whose
re-computed keys (productId, else `title#index` at the element's new index)
are pairwise distinct; the counterexample shows the restriction is needed
precisely when a productId collides with a shifted fallback key. -/
theorem dedupeProducts_idempotent_of_nodupKeys (l : List CommerceProduct)
    (h : (dedupKeys (dedupeProducts l) 0).Nodup) :
    dedupeProducts (dedupeProducts l) = dedupeProducts l :=
  dedupeAux_eq_self (dedupeProducts l) 0 [] h (fun _ _ => rfl)

/-- Witness for the amended C9 at a concrete list with a duplicate id. -/
theorem dedupeProducts_idempotent_of_nodupKeys_witness :
    (dedupKeys (dedupeProducts [p9B, p9B, p9D]) 0).Nodup ∧
      dedupeProducts (dedupeProducts [p9B, p9B, p9D])
        = dedupeProducts [p9B, p9B, p9D] :=
  ⟨by decide, dedupeProducts_idempotent_of_nodupKeys [p9B, p9B, p9D] (by decide)⟩

/-! ### C8: wide product ids survive JSON rounding -/

theorem matchPidAt_some_len (cs : List Char) (ds : List Char)
    (h : matchPidAt cs = some ds) : ds.length ≥ 15 := by
  unfold matchPidAt at h
  split at h
  · split at h
    · split at h
      · cases h
        assumption
      · exact absurd h (by simp)
    · exact absurd h (by simp)
  · exact absurd h (by simp)

theorem scanPid_some_len (cs : List Char) :
    ∀ ds, scanPid cs = some ds → ds.length ≥ 15 := by
  induction cs with
  | nil => intro ds h; exact absurd h (by simp [scanPid])
  | cons c rest ih =>
    intro ds h
    rw [scanPid] at h
    cases hm : matchPidAt (c :: rest) with
    | some ds2 =>
      rw [hm] at h
      cases h
      exact matchPidAt_some_len _ _ hm
    | none =>
      rw [hm] at h
      exact ih ds h

theorem extractProductId_ne_empty (s ds : String)
    (h : extractProductIdFromJson s = some ds) : ds ≠ "" := by
  unfold extractProductIdFromJson at h
  cases hs : scanPid s.data with
  | none => rw [hs] at h; exact absurd h (by simp)
  | some l =>
    rw [hs] at h
    have hlen := scanPid_some_len s.data l hs
    have h2 : String.mk l = ds := by simpa using h
    intro hempty
    rw [← h2] at hempty
    have hl : l = [] := by
      have := congrArg String.data hempty
      simpa using this
    rw [hl] at hlen
    simp at hlen

/-- C8: when a product payload's nested `extra` JSON string contains a
`product_id` of 15 or more digits and that string parses, the merged payload's
extracted productId is the literal digit string from the raw text — regardless
of the (rounded) number the JSON parse produced. -/
theorem bigProductId_survives_json_rounding (item : JSVal) (s ds : String)
    (nested : JSVal)
    (hextra : jsGet item "extra" = .str s)
    (hpid : extractProductIdFromJson s = some ds)
    (hparse : safeJsonParse (.str s) = some nested)
    (hobj : (truthy nested && isObjectLike nested) = true) :
    (normalizeProduct (mergeItemExtra item)).productId = some ds := by
  have hds := extractProductId_ne_empty s ds hpid
  have hmerge : mergeItemExtra item
      = .obj (("product_id", .str ds) :: (spreadFields item ++ spreadFields nested)) := by
    unfold mergeItemExtra
    rw [hextra]
    simp only [mergeWithExtra]
    rw [hparse]
    simp only [hobj, if_true]
    rw [hpid]
  rw [hmerge]
  simp [normalizeProduct, jsGet, objFind, jsCoalesce, toOptionalString, truthy,
    jsToString, hds]

/-- A concrete anchor product item whose `extra` holds a 18-digit product id
inside a JSON string. -/
def item8w : JSVal :=
  .obj [("extra", .str "\x7b\"product_id\": 123456789012345678, \"title\": \"Big\"\x7d")]

/-- Witness for C8: the host JSON parse rounds the 18-digit id to
`…680`, yet the extracted productId is the literal `…678`. -/
theorem bigProductId_survives_json_rounding_witness :
    jsonParse "\x7b\"product_id\": 123456789012345678, \"title\": \"Big\"\x7d"
      = some (.obj [("product_id", .num 123456789012345680), ("title", .str "Big")]) ∧
    (normalizeProduct (mergeItemExtra item8w)).productId
      = some "123456789012345678" :=
  ⟨rfl,
    bigProductId_survives_json_rounding item8w
      "\x7b\"product_id\": 123456789012345678, \"title\": \"Big\"\x7d"
      "123456789012345678"
      (.obj [("product_id", .num 123456789012345680), ("title", .str "Big")])
      rfl rfl rfl rfl⟩

/-! ## Quota governor (src/hooks/useQuota.ts) -/

structure QuotaInfo where
  remaining : Option Int
  quota : Option Int
  status : String
deriving DecidableEq, Repr

/-- The three per-run-kind stop refs the hook receives
(`keywordShouldStopRef`, `accountShouldStopRef`, `audioShouldStopRef`). -/
structure StopFlags where
  keyword : Bool
  account : Bool
  audio : Bool
deriving DecidableEq, Repr

/-- The parsed body of a 429 response (`errorData`); absent fields are
`none`. -/
structure ErrBody where
  remaining : Option Int
  quota : Option Int
  message : Option String
deriving DecidableEq, Repr

structure Handle429Out where
  handled : Bool
  quotaInfo : Option QuotaInfo
  flags : StopFlags
  message : Option String
deriving DecidableEq, Repr

/-- `a ?? b` on optional numbers. -/
def optCoalesceInt : Option Int → Option Int → Option Int
  | some n, _ => some n
  | none, b => b

/-- The `quotaInfo?.quota` read. -/
def prevQuotaOf : Option QuotaInfo → Option Int
  | some qi => qi.quota
  | none => none

/-- The fixed next-UTC-midnight reset hint used when the response has no
message (the two template strings at src/hooks/useQuota.ts:154-155). -/
def quotaExhaustedFallbackMessage (fallbackQuota : Option Int)
    (fallbackRemaining : Int) : String :=
  match fallbackQuota with
  | some q =>
    "今日数据点已用完（" ++ toString fallbackRemaining ++ "/" ++ toString q
      ++ "个），将于次日00:00（UTC）自动重置"
  | none => "今日数据点已用完，将于次日00:00（UTC）自动重置"

/-- `handle429Error` (src/hooks/useQuota.ts:137-163): on a 429 response set
the displayed quota to the authoritative value (or 0), raise all three stop
flags, and surface the body's message or the UTC-midnight fallback.  (The
`handleQuotaHeaders` call it makes first is immediately overwritten by the
explicit `setQuotaInfo` and is not modelled separately.) -/
def handle429Error (status : Nat) (body : ErrBody)
    (prevQuota : Option QuotaInfo) (flags : StopFlags) : Handle429Out :=
  if status = 429 then
    { handled := true,
      quotaInfo := some ⟨some (body.remaining.getD 0),
        optCoalesceInt body.quota (prevQuotaOf prevQuota), "available"⟩,
      flags := ⟨true, true, true⟩,
      message := some (match body.message with
        | some m =>
          if m ≠ "" then m
          else quotaExhaustedFallbackMessage
            (optCoalesceInt body.quota (prevQuotaOf prevQuota))
            (body.remaining.getD 0)
        | none => quotaExhaustedFallbackMessage
            (optCoalesceInt body.quota (prevQuotaOf prevQuota))
            (body.remaining.getD 0)) }
  else ⟨false, prevQuota, flags, none⟩

/-! ## The cursor walker
(`writeKeywordTikTokData` / `writeAccountTikTokData`, part_006)

One sequential fetch loop per run.  A `FetchResult` is what one
`fetchKeywordVideos` / account fetch call produced, as the loop body
discriminates it: a 429, a non-ok HTTP status (thrown), an abort (quiet
break), a response without a `search_item_list` array (malformed), or a data
page.  Items are modelled post-mapping: validity (`aweme_info`/`author`
present) plus the built share link; record construction (`buildKeywordRecord`)
succeeds exactly when the dedup key is non-empty, which the loop has already
checked, so it is modelled as total.  The loop-local `remainingAfterWrite`
display value and the i18n/table-name message variants are collapsed into the
rendered message strings.  External mid-run cancellation is not modelled (no
claim exercises it); the stop flags change only through `handle429Error`. -/

structure SearchItem where
  valid : Bool
  shareLink : String
deriving DecidableEq, Repr

structure PageData where
  items : List SearchItem
  hasMore : Bool
  maxCursor : Option String
  cursor : Option String
deriving DecidableEq, Repr

inductive FetchResult where
  | ok (data : PageData)
  | rateLimited (body : ErrBody)
  | httpError (status : Nat)
  | malformed
  | aborted
deriving DecidableEq, Repr

inductive RunKind where
  | keyword
  | account
deriving DecidableEq, Repr

def stopFlagOf (flags : StopFlags) : RunKind → Bool
  | .keyword => flags.keyword
  | .account => flags.account

def stallEndMessage : RunKind → String
  | .keyword => "仍未获得下一批起点，已结束当前关键词"
  | .account => "仍未获得下一批起点，已结束当前账号"

def stallRetryMessage : String :=
  "还有更多但没有下一批起点，已重试当前批次"

structure RunState where
  existingLinks : List String
  emptySlots : List String
  totalWritten : Nat
  hasMore : Bool
  offset : String
  pageCount : Nat
  missingNextCursorOffset : Option String
  quotaInfo : Option QuotaInfo
  flags : StopFlags
  messages : List String
  fetchedOffsets : List String
  errored : Option String
deriving DecidableEq, Repr

/-- The per-item dedup filter (lines 1082-1084): skip an item whose
normalized link key is empty or already seen, otherwise register the key. -/
def collectNewItems : List SearchItem → List String → List SearchItem × List String
  | [], links => ([], links)
  | item :: rest, links =>
    if normalizeUrlKey item.shareLink = ""
        || links.contains (normalizeUrlKey item.shareLink) then
      collectNewItems rest links
    else
      ((item :: (collectNewItems rest (normalizeUrlKey item.shareLink :: links)).1),
        (collectNewItems rest (normalizeUrlKey item.shareLink :: links)).2)

/-- `String(nextCursor).trim()` with the `undefined`/`null` to `''`
conversion (lines 1131-1134). -/
def nextCursorText (d : PageData) : String :=
  match d.maxCursor with
  | some s => trimStr s
  | none =>
    match d.cursor with
    | some s => trimStr s
    | none => ""

/-- The batched write of one page (lines 1105-1121): `addRecordsInBatches`
over the shared empty-slot pool, then progress bookkeeping. -/
def writePageRecords (env : BatchEnv SearchItem) (kind : RunKind)
    (st : RunState) (recs : List SearchItem) : RunState :=
  if recs = [] then st
  else
    { st with
      emptySlots := (addRecordsInBatches recs 50 st.emptySlots env
        (stopFlagOf st.flags kind)).leftoverEmptyIds,
      totalWritten := st.totalWritten
        + (addRecordsInBatches recs 50 st.emptySlots env
            (stopFlagOf st.flags kind)).appendedCount
        + (addRecordsInBatches recs 50 st.emptySlots env
            (stopFlagOf st.flags kind)).filledCount,
      messages := st.messages ++ ["已写入 "
        ++ toString (st.totalWritten
          + (addRecordsInBatches recs 50 st.emptySlots env
              (stopFlagOf st.flags kind)).appendedCount
          + (addRecordsInBatches recs 50 st.emptySlots env
              (stopFlagOf st.flags kind)).filledCount)
        ++ " 条数据"] }

/-- The cursor/stall logic (lines 1130-1154): advance on a fresh cursor,
retry the same cursor once when it is missing or unchanged, soft-end on the
second miss, end on `has_more` false. -/
def stepCursor (kind : RunKind) (st : RunState) (d : PageData) : RunState :=
  if d.hasMore then
    if nextCursorText d = "" || nextCursorText d = st.offset then
      if st.missingNextCursorOffset = some st.offset then
        { st with
            messages := st.messages ++ [stallEndMessage kind],
            hasMore := false }
      else
        { st with
            missingNextCursorOffset := some st.offset,
            messages := st.messages ++ [stallRetryMessage] }
    else
      { st with
          missingNextCursorOffset := none,
          offset := nextCursorText d,
          pageCount := st.pageCount + 1,
          messages := st.messages ++ ["已获取第 " ++ toString (st.pageCount + 1)
            ++ " 页数据，共 " ++ toString st.totalWritten ++ " 条"] }
  else { st with hasMore := false }

/-- One iteration of the `mainLoop` body after the fetch; the boolean says
whether the loop continues (`false` models the `break mainLoop` paths). -/
def runStep (kind : RunKind) (env : BatchEnv SearchItem) (st : RunState) :
    FetchResult → RunState × Bool
  | .rateLimited body =>
    ({ st with
        quotaInfo := (handle429Error 429 body st.quotaInfo st.flags).quotaInfo,
        flags := (handle429Error 429 body st.quotaInfo st.flags).flags,
        messages := st.messages
          ++ (match (handle429Error 429 body st.quotaInfo st.flags).message with
              | some m => [m]
              | none => []) }, false)
  | .httpError status =>
    ({ st with errored := some ("API 请求失败: " ++ toString status) }, false)
  | .malformed =>
    ({ st with messages := st.messages ++ ["API 返回数据格式错误"] }, false)
  | .aborted => (st, false)
  | .ok d =>
    (stepCursor kind
      (writePageRecords env kind
        { st with existingLinks :=
            (collectNewItems (d.items.filter (fun i => i.valid))
              st.existingLinks).2 }
        (collectNewItems (d.items.filter (fun i => i.valid))
          st.existingLinks).1)
      d, true)

/-- The `mainLoop` (line 970): `while (hasMore && !stop && pageCount < 100)`,
consuming one fetch result per iteration and recording the offset each fetch
was issued at. -/
def runLoop (kind : RunKind) (env : BatchEnv SearchItem) :
    RunState → List FetchResult → RunState
  | st, [] => st
  | st, resp :: rest =>
    if st.hasMore && !(stopFlagOf st.flags kind)
        && decide (st.pageCount < 100) then
      if (runStep kind env
          { st with fetchedOffsets := st.fetchedOffsets ++ [st.offset] }
          resp).2 then
        runLoop kind env
          (runStep kind env
            { st with fetchedOffsets := st.fetchedOffsets ++ [st.offset] }
            resp).1 rest
      else
        (runStep kind env
          { st with fetchedOffsets := st.fetchedOffsets ++ [st.offset] }
          resp).1
    else st

def initialRunState (seedLinks slots : List String)
    (quota : Option QuotaInfo) : RunState :=
  ⟨seedLinks, slots, 0, true, "0", 0, none, quota, ⟨false, false, false⟩,
    [], [], none⟩

/-- A whole run (lines 954-1196): seed the dedup keys and empty-slot pool,
walk the cursor, then emit the final summary message (stopped / success /
failure). -/
def runCollection (kind : RunKind) (env : BatchEnv SearchItem)
    (seedLinks slots : List String) (quota : Option QuotaInfo)
    (responses : List FetchResult) : RunState :=
  { runLoop kind env (initialRunState seedLinks slots quota) responses with
    messages :=
      (runLoop kind env (initialRunState seedLinks slots quota) responses).messages
      ++ [match (runLoop kind env (initialRunState seedLinks slots quota)
              responses).errored with
          | some e => "写入数据失败: " ++ e
          | none =>
            if stopFlagOf (runLoop kind env (initialRunState seedLinks slots quota)
                responses).flags kind then
              "已停止采集，成功写入 " ++ toString (runLoop kind env
                (initialRunState seedLinks slots quota) responses).totalWritten
                ++ " 条数据"
            else
              "成功写入 " ++ toString (runLoop kind env
                (initialRunState seedLinks slots quota) responses).totalWritten
                ++ " 条数据"] }

/-! ### Walker control-flow lemmas -/

theorem writePageRecords_preserves (env : BatchEnv SearchItem) (kind : RunKind)
    (st : RunState) (recs : List SearchItem) :
    (writePageRecords env kind st recs).offset = st.offset ∧
    (writePageRecords env kind st recs).hasMore = st.hasMore ∧
    (writePageRecords env kind st recs).pageCount = st.pageCount ∧
    (writePageRecords env kind st recs).missingNextCursorOffset
      = st.missingNextCursorOffset ∧
    (writePageRecords env kind st recs).flags = st.flags ∧
    (writePageRecords env kind st recs).errored = st.errored ∧
    (writePageRecords env kind st recs).fetchedOffsets = st.fetchedOffsets := by
  unfold writePageRecords
  by_cases h : recs = [] <;> simp [h]

theorem stepCursor_stall_first (kind : RunKind) (st : RunState) (d : PageData)
    (hm : d.hasMore = true)
    (hstall : nextCursorText d = "" ∨ nextCursorText d = st.offset)
    (hmiss : st.missingNextCursorOffset ≠ some st.offset) :
    stepCursor kind st d
      = { st with
          missingNextCursorOffset := some st.offset,
          messages := st.messages ++ [stallRetryMessage] } := by
  unfold stepCursor
  rcases hstall with h | h <;> simp [hm, h, hmiss]

theorem stepCursor_stall_second (kind : RunKind) (st : RunState) (d : PageData)
    (hm : d.hasMore = true)
    (hstall : nextCursorText d = "" ∨ nextCursorText d = st.offset)
    (hmiss : st.missingNextCursorOffset = some st.offset) :
    stepCursor kind st d
      = { st with
          messages := st.messages ++ [stallEndMessage kind],
          hasMore := false } := by
  unfold stepCursor
  rcases hstall with h | h <;> simp [hm, h, hmiss]

theorem runStep_ok (kind : RunKind) (env : BatchEnv SearchItem) (st : RunState)
    (d : PageData) :
    runStep kind env st (.ok d)
      = (stepCursor kind
          (writePageRecords env kind
            { st with existingLinks :=
                (collectNewItems (d.items.filter (fun i => i.valid))
                  st.existingLinks).2 }
            (collectNewItems (d.items.filter (fun i => i.valid))
              st.existingLinks).1)
          d, true) := rfl

theorem runLoop_no_more (kind : RunKind) (env : BatchEnv SearchItem)
    (st : RunState) (rs : List FetchResult) (h : st.hasMore = false) :
    runLoop kind env st rs = st := by
  cases rs with
  | nil => rfl
  | cons r rs =>
    rw [runLoop, if_neg]
    simp [h]

theorem runLoop_stopped (kind : RunKind) (env : BatchEnv SearchItem)
    (st : RunState) (rs : List FetchResult)
    (h : stopFlagOf st.flags kind = true) :
    runLoop kind env st rs = st := by
  cases rs with
  | nil => rfl
  | cons r rs =>
    rw [runLoop, if_neg]
    simp [h]

theorem runLoop_cons_true (kind : RunKind) (env : BatchEnv SearchItem)
    (st : RunState) (resp : FetchResult) (rest : List FetchResult)
    (hguard : (st.hasMore && !(stopFlagOf st.flags kind)
      && decide (st.pageCount < 100)) = true)
    (hcont : (runStep kind env
      { st with fetchedOffsets := st.fetchedOffsets ++ [st.offset] } resp).2
      = true) :
    runLoop kind env st (resp :: rest)
      = runLoop kind env
          (runStep kind env
            { st with fetchedOffsets := st.fetchedOffsets ++ [st.offset] }
            resp).1 rest := by
  rw [runLoop, if_pos hguard, if_pos hcont]

theorem runLoop_cons_break (kind : RunKind) (env : BatchEnv SearchItem)
    (st : RunState) (resp : FetchResult) (rest : List FetchResult)
    (hguard : (st.hasMore && !(stopFlagOf st.flags kind)
      && decide (st.pageCount < 100)) = true)
    (hcont : (runStep kind env
      { st with fetchedOffsets := st.fetchedOffsets ++ [st.offset] } resp).2
      = false) :
    runLoop kind env st (resp :: rest)
      = (runStep kind env
          { st with fetchedOffsets := st.fetchedOffsets ++ [st.offset] }
          resp).1 := by
  rw [runLoop, if_pos hguard, if_neg (by simp [hcont])]

/-- One loop iteration on a first stalled response: the walker does not
advance — the cursor, page counter, flags and error state are unchanged, the
stalled offset is remembered, and one fetch at the current offset was
issued. -/
theorem runLoop_stall_first_step (kind : RunKind) (env : BatchEnv SearchItem)
    (st : RunState) (d : PageData) (rest : List FetchResult)
    (hhm : st.hasMore = true) (hstop : stopFlagOf st.flags kind = false)
    (hpc : st.pageCount < 100)
    (hmiss : st.missingNextCursorOffset ≠ some st.offset)
    (hd : d.hasMore = true)
    (hs : nextCursorText d = "" ∨ nextCursorText d = st.offset) :
    ∃ st2, runLoop kind env st (.ok d :: rest) = runLoop kind env st2 rest ∧
      st2.offset = st.offset ∧ st2.hasMore = true ∧
      st2.pageCount = st.pageCount ∧ st2.flags = st.flags ∧
      st2.errored = st.errored ∧
      st2.missingNextCursorOffset = some st.offset ∧
      st2.fetchedOffsets = st.fetchedOffsets ++ [st.offset] := by
  have hguard : (st.hasMore && !(stopFlagOf st.flags kind)
      && decide (st.pageCount < 100)) = true := by simp [hhm, hstop, hpc]
  obtain ⟨hwo, hwh, hwp, hwm, hwf, hwe, hwfo⟩ :=
    writePageRecords_preserves env kind
      { st with
          fetchedOffsets := st.fetchedOffsets ++ [st.offset],
          existingLinks :=
            (collectNewItems (d.items.filter (fun i => i.valid))
              st.existingLinks).2 }
      (collectNewItems (d.items.filter (fun i => i.valid)) st.existingLinks).1
  have hsc := stepCursor_stall_first kind
    (writePageRecords env kind
      { st with
          fetchedOffsets := st.fetchedOffsets ++ [st.offset],
          existingLinks :=
            (collectNewItems (d.items.filter (fun i => i.valid))
              st.existingLinks).2 }
      (collectNewItems (d.items.filter (fun i => i.valid)) st.existingLinks).1)
    d hd (by rw [hwo]; exact hs) (by rw [hwm, hwo]; exact hmiss)
  refine ⟨(runStep kind env
      { st with fetchedOffsets := st.fetchedOffsets ++ [st.offset] }
      (.ok d)).1,
    runLoop_cons_true kind env st (.ok d) rest hguard (by rw [runStep_ok]),
    ?_, ?_, ?_, ?_, ?_, ?_, ?_⟩
  · rw [runStep_ok]
    show (stepCursor kind _ d).offset = st.offset
    rw [hsc]
    exact hwo
  · rw [runStep_ok]
    show (stepCursor kind _ d).hasMore = true
    rw [hsc]
    exact hwh.trans hhm
  · rw [runStep_ok]
    show (stepCursor kind _ d).pageCount = st.pageCount
    rw [hsc]
    exact hwp
  · rw [runStep_ok]
    show (stepCursor kind _ d).flags = st.flags
    rw [hsc]
    exact hwf
  · rw [runStep_ok]
    show (stepCursor kind _ d).errored = st.errored
    rw [hsc]
    exact hwe
  · rw [runStep_ok]
    show (stepCursor kind _ d).missingNextCursorOffset = some st.offset
    rw [hsc]
    exact congrArg some hwo
  · rw [runStep_ok]
    show (stepCursor kind _ d).fetchedOffsets = st.fetchedOffsets ++ [st.offset]
    rw [hsc]
    exact hwfo

/-- One loop iteration on a second stalled response at the remembered offset:
pagination ends (hasMore becomes false), one more fetch at the same offset was
issued, the page counter, flags and error state are unchanged, and the
stalled-cursor soft-end message is the last message. -/
theorem runLoop_stall_second_step (kind : RunKind) (env : BatchEnv SearchItem)
    (st : RunState) (d : PageData) (rest : List FetchResult)
    (hhm : st.hasMore = true) (hstop : stopFlagOf st.flags kind = false)
    (hpc : st.pageCount < 100)
    (hmiss : st.missingNextCursorOffset = some st.offset)
    (hd : d.hasMore = true)
    (hs : nextCursorText d = "" ∨ nextCursorText d = st.offset) :
    ∃ st2, runLoop kind env st (.ok d :: rest) = runLoop kind env st2 rest ∧
      st2.hasMore = false ∧ st2.pageCount = st.pageCount ∧
      st2.flags = st.flags ∧ st2.errored = st.errored ∧
      st2.fetchedOffsets = st.fetchedOffsets ++ [st.offset] ∧
      st2.messages.getLast? = some (stallEndMessage kind) := by
  have hguard : (st.hasMore && !(stopFlagOf st.flags kind)
      && decide (st.pageCount < 100)) = true := by simp [hhm, hstop, hpc]
  obtain ⟨hwo, hwh, hwp, hwm, hwf, hwe, hwfo⟩ :=
    writePageRecords_preserves env kind
      { st with
          fetchedOffsets := st.fetchedOffsets ++ [st.offset],
          existingLinks :=
            (collectNewItems (d.items.filter (fun i => i.valid))
              st.existingLinks).2 }
      (collectNewItems (d.items.filter (fun i => i.valid)) st.existingLinks).1
  have hsc := stepCursor_stall_second kind
    (writePageRecords env kind
      { st with
          fetchedOffsets := st.fetchedOffsets ++ [st.offset],
          existingLinks :=
            (collectNewItems (d.items.filter (fun i => i.valid))
              st.existingLinks).2 }
      (collectNewItems (d.items.filter (fun i => i.valid)) st.existingLinks).1)
    d hd (by rw [hwo]; exact hs) (by rw [hwm, hwo]; exact hmiss)
  refine ⟨(runStep kind env
      { st with fetchedOffsets := st.fetchedOffsets ++ [st.offset] }
      (.ok d)).1,
    runLoop_cons_true kind env st (.ok d) rest hguard (by rw [runStep_ok]),
    ?_, ?_, ?_, ?_, ?_, ?_⟩
  · rw [runStep_ok]
    show (stepCursor kind _ d).hasMore = false
    rw [hsc]
  · rw [runStep_ok]
    show (stepCursor kind _ d).pageCount = st.pageCount
    rw [hsc]
    exact hwp
  · rw [runStep_ok]
    show (stepCursor kind _ d).flags = st.flags
    rw [hsc]
    exact hwf
  · rw [runStep_ok]
    show (stepCursor kind _ d).errored = st.errored
    rw [hsc]
    exact hwe
  · rw [runStep_ok]
    show (stepCursor kind _ d).fetchedOffsets = st.fetchedOffsets ++ [st.offset]
    rw [hsc]
    exact hwfo
  · rw [runStep_ok]
    show (stepCursor kind _ d).messages.getLast? = some (stallEndMessage kind)
    rw [hsc]
    show ((writePageRecords env kind _ _).messages
      ++ [stallEndMessage kind]).getLast? = some (stallEndMessage kind)
    exact List.getLast?_concat _

/-- C2: when the source keeps reporting more data but an empty or unchanged
cursor, the walker does not advance; it refetches the same cursor exactly once
more, and when the second attempt again yields no new cursor it terminates
early: exactly two fetches at the stalled cursor, none of the remaining
responses consumed, the page counter not advanced, no error raised, no stop
flag changed, and the stalled-cursor soft-end message is the final loop
message. -/
theorem runLoop_stalled_cursor (kind : RunKind) (env : BatchEnv SearchItem)
    (st : RunState) (d1 d2 : PageData) (rest : List FetchResult)
    (hhm : st.hasMore = true) (hstop : stopFlagOf st.flags kind = false)
    (hpc : st.pageCount < 100)
    (hmiss : st.missingNextCursorOffset ≠ some st.offset)
    (hd1 : d1.hasMore = true)
    (hs1 : nextCursorText d1 = "" ∨ nextCursorText d1 = st.offset)
    (hd2 : d2.hasMore = true)
    (hs2 : nextCursorText d2 = "" ∨ nextCursorText d2 = st.offset) :
    (runLoop kind env st (.ok d1 :: .ok d2 :: rest)).fetchedOffsets
      = st.fetchedOffsets ++ [st.offset, st.offset] ∧
    (runLoop kind env st (.ok d1 :: .ok d2 :: rest)).hasMore = false ∧
    (runLoop kind env st (.ok d1 :: .ok d2 :: rest)).pageCount = st.pageCount ∧
    (runLoop kind env st (.ok d1 :: .ok d2 :: rest)).flags = st.flags ∧
    (runLoop kind env st (.ok d1 :: .ok d2 :: rest)).errored = st.errored ∧
    (runLoop kind env st (.ok d1 :: .ok d2 :: rest)).messages.getLast?
      = some (stallEndMessage kind) := by
  obtain ⟨stA, hloopA, hAo, hAh, hAp, hAf, hAe, hAm, hAfo⟩ :=
    runLoop_stall_first_step kind env st d1 (.ok d2 :: rest)
      hhm hstop hpc hmiss hd1 hs1
  obtain ⟨stB, hloopB, hBh, hBp, hBf, hBe, hBfo, hBlast⟩ :=
    runLoop_stall_second_step kind env stA d2 rest
      hAh (by rw [hAf]; exact hstop) (by rw [hAp]; exact hpc)
      (by rw [hAm, hAo]) hd2 (by rw [hAo]; exact hs2)
  have hfinal : runLoop kind env st (.ok d1 :: .ok d2 :: rest) = stB := by
    rw [hloopA, hloopB, runLoop_no_more kind env stB rest hBh]
  rw [hfinal]
  refine ⟨?_, hBh, ?_, ?_, ?_, hBlast⟩
  · rw [hBfo, hAfo, hAo, List.append_assoc]
    rfl
  · rw [hBp, hAp]
  · rw [hBf, hAf]
  · rw [hBe, hAe]

/-- Witness for C2 at a concrete stalled run: two pages claiming more data
with an unchanged cursor. -/
theorem runLoop_stalled_cursor_witness :
    ((initialRunState [] [] none).hasMore = true ∧
      (initialRunState [] [] none).missingNextCursorOffset
        ≠ some (initialRunState [] [] none).offset) ∧
    (runLoop .keyword ⟨fun _ _ => false, fun _ => "row"⟩
        (initialRunState [] [] none)
        [.ok ⟨[], true, some "0", none⟩, .ok ⟨[], true, none, none⟩,
          .ok ⟨[], true, some "7", none⟩]).fetchedOffsets
      = (initialRunState [] [] none).fetchedOffsets
        ++ [(initialRunState [] [] none).offset,
            (initialRunState [] [] none).offset] ∧
    (runLoop .keyword ⟨fun _ _ => false, fun _ => "row"⟩
        (initialRunState [] [] none)
        [.ok ⟨[], true, some "0", none⟩, .ok ⟨[], true, none, none⟩,
          .ok ⟨[], true, some "7", none⟩]).hasMore = false ∧
    (runLoop .keyword ⟨fun _ _ => false, fun _ => "row"⟩
        (initialRunState [] [] none)
        [.ok ⟨[], true, some "0", none⟩, .ok ⟨[], true, none, none⟩,
          .ok ⟨[], true, some "7", none⟩]).messages.getLast?
      = some (stallEndMessage .keyword) := by
  have h := runLoop_stalled_cursor .keyword ⟨fun _ _ => false, fun _ => "row"⟩
    (initialRunState [] [] none) ⟨[], true, some "0", none⟩
    ⟨[], true, none, none⟩ [.ok ⟨[], true, some "7", none⟩]
    (by decide) (by decide) (by decide) (by decide) (by decide)
    (by decide) (by decide) (by decide)
  exact ⟨⟨by decide, by decide⟩, h.1, h.2.1, h.2.2.2.2.2⟩



/-! ### C5: the two-page scenario -/

/-- Page 1 of the C5 scenario: 15 valid items, 5 of which normalize to keys
already in the seen-key set. -/
def c5Items : List SearchItem :=
  [⟨true, "https://x.com/v1"⟩, ⟨true, "https://x.com/v2"⟩,
   ⟨true, "https://x.com/v3"⟩, ⟨true, "https://x.com/v4"⟩,
   ⟨true, "https://x.com/v5"⟩, ⟨true, "https://x.com/v6"⟩,
   ⟨true, "https://x.com/v7"⟩, ⟨true, "https://x.com/v8"⟩,
   ⟨true, "https://x.com/v9"⟩, ⟨true, "https://x.com/v10"⟩,
   ⟨true, "https://x.com/v11"⟩, ⟨true, "https://x.com/v12"⟩,
   ⟨true, "https://x.com/v13"⟩, ⟨true, "https://x.com/v14"⟩,
   ⟨true, "https://x.com/v15"⟩]

/-- The pre-seeded dedup keys matching the first five items. -/
def c5Seed : List String :=
  ["https://x.com/v1", "https://x.com/v2", "https://x.com/v3",
   "https://x.com/v4", "https://x.com/v5"]

def c5Env : BatchEnv SearchItem :=
  ⟨fun _ _ => false, fun _ => "row"⟩

/-- The C5 run: page 1 has 15 items (5 duplicates), `hasMore` true, next
cursor `"10"`; page 2 reports `hasMore` false. -/
def c5Run : RunState :=
  runCollection .keyword c5Env c5Seed [] none
    [.ok ⟨c5Items, true, some "10", none⟩, .ok ⟨[], false, none, none⟩]

/-- C5 counterexample: in the stated scenario the run writes exactly 10
records and completes naturally, but the page counter ends at 1, not 2 —
`pageCount` only increments when the cursor advances, so the final page that
reports no more data is never counted. -/
theorem c5Run_not_two_pages :
    c5Run.totalWritten = 10 ∧ c5Run.hasMore = false ∧
    c5Run.errored = none ∧ stopFlagOf c5Run.flags .keyword = false ∧
    ¬ (c5Run.pageCount = 2) := by decide

/-- C5 amended: the scenario writes exactly 10 new records across two fetched
pages (the walker fetches at offsets "0" and "10"), the page counter ends at 1
(it increments only on a cursor advance, so the final hasMore-false page is
not counted), and the run ends in natural completion — no stop, no error, and
the plain success summary as the final message. -/
theorem c5Run_writes_ten_completes :
    c5Run.totalWritten = 10 ∧
    c5Run.pageCount = 1 ∧
    c5Run.fetchedOffsets = ["0", "10"] ∧
    c5Run.hasMore = false ∧
    c5Run.errored = none ∧
    stopFlagOf c5Run.flags .keyword = false ∧
    c5Run.messages.getLast? = some "成功写入 10 条数据" := by decide

theorem listContainsSub_append_right (pat b : List Char)
    (h : listContainsSub pat b = true) :
    ∀ a, listContainsSub pat (a ++ b) = true := by
  intro a
  induction a with
  | nil => exact h
  | cons c cs ih =>
    rw [List.cons_append, listContainsSub, ih]
    simp

theorem containsSub_append_right (a b pat : String)
    (h : containsSub b pat = true) :
    containsSub (a ++ b) pat = true := by
  unfold containsSub at h ⊢
  rw [String.data_append]
  exact listContainsSub_append_right pat.data b.data h a.data

/-! ### C4: the 429 quota governor -/

/-- C4: on an authoritative 429, the governor (a) sets the displayed
remaining quota to the authoritative body value, or 0 when absent; (b) raises
the stop flag of all three run kinds sharing the pool, so a walker whose flag
is raised issues no further page fetch, and a walker that receives the 429
mid-run performs no fetch beyond the one that got the 429; (c) surfaces one
message, falling back to the next-UTC-midnight reset hint when the body has
none. -/
theorem quota429_halts_all_runs :
    (∀ (body : ErrBody) (prev : Option QuotaInfo) (flags : StopFlags),
      ∃ qi, (handle429Error 429 body prev flags).quotaInfo = some qi ∧
        qi.remaining = some (body.remaining.getD 0)) ∧
    (∀ (body : ErrBody) (prev : Option QuotaInfo) (flags : StopFlags),
      (handle429Error 429 body prev flags).flags = ⟨true, true, true⟩) ∧
    (∀ (body : ErrBody) (prev : Option QuotaInfo) (flags : StopFlags),
      body.message = none ∨ body.message = some "" →
      ∃ m, (handle429Error 429 body prev flags).message = some m ∧
        containsSub m "次日00:00（UTC）自动重置" = true) ∧
    (∀ (kind : RunKind) (env : BatchEnv SearchItem) (st : RunState)
        (rs : List FetchResult), stopFlagOf st.flags kind = true →
      runLoop kind env st rs = st) ∧
    (∀ (kind : RunKind) (env : BatchEnv SearchItem) (st : RunState)
        (body : ErrBody) (rest : List FetchResult),
      st.hasMore = true → stopFlagOf st.flags kind = false →
      st.pageCount < 100 →
      (runLoop kind env st (.rateLimited body :: rest)).fetchedOffsets
          = st.fetchedOffsets ++ [st.offset] ∧
        (runLoop kind env st (.rateLimited body :: rest)).flags
          = ⟨true, true, true⟩) := by
  refine ⟨?_, ?_, ?_, ?_, ?_⟩
  · intro body prev flags
    exact ⟨_, rfl, rfl⟩
  · intro body prev flags
    rfl
  · intro body prev flags hmsg
    have hfb : containsSub (quotaExhaustedFallbackMessage
        (optCoalesceInt body.quota (prevQuotaOf prev)) (body.remaining.getD 0))
        "次日00:00（UTC）自动重置" = true := by
      unfold quotaExhaustedFallbackMessage
      cases optCoalesceInt body.quota (prevQuotaOf prev) with
      | none =>
        show containsSub "今日数据点已用完，将于次日00:00（UTC）自动重置"
          "次日00:00（UTC）自动重置" = true
        decide
      | some q =>
        show containsSub ("今日数据点已用完（" ++ toString (body.remaining.getD 0)
          ++ "/" ++ toString q ++ "个），将于次日00:00（UTC）自动重置")
          "次日00:00（UTC）自动重置" = true
        apply containsSub_append_right
        decide
    rcases hmsg with h | h
    · exact ⟨_, by rw [handle429Error, if_pos rfl, h], hfb⟩
    · exact ⟨_, by rw [handle429Error, if_pos rfl, h]; rfl, hfb⟩
  · intro kind env st rs h
    exact runLoop_stopped kind env st rs h
  · intro kind env st body rest hhm hstop hpc
    have hguard : (st.hasMore && !(stopFlagOf st.flags kind)
        && decide (st.pageCount < 100)) = true := by simp [hhm, hstop, hpc]
    have hbreak := runLoop_cons_break kind env st (.rateLimited body) rest
      hguard rfl
    rw [hbreak]
    constructor
    · rfl
    · rfl

/-- A run state whose stop flags are already raised (as after a 429). -/
def st429stop : RunState :=
  { initialRunState [] [] none with flags := ⟨true, true, true⟩ }

/-- Witness for C4 at concrete inputs: an empty 429 body yields remaining 0,
all stop flags raised, the UTC-midnight fallback message; a stopped walker
consumes no response; a walker hitting the 429 fetches only the page that
returned it. -/
theorem quota429_halts_all_runs_witness :
    (∃ qi, (handle429Error 429 ⟨none, none, none⟩ none
        ⟨false, false, false⟩).quotaInfo = some qi ∧ qi.remaining = some 0) ∧
    (handle429Error 429 ⟨none, none, none⟩ none ⟨false, false, false⟩).flags
      = ⟨true, true, true⟩ ∧
    (∃ m, (handle429Error 429 ⟨none, none, none⟩ none
        ⟨false, false, false⟩).message = some m ∧
      containsSub m "次日00:00（UTC）自动重置" = true) ∧
    (stopFlagOf st429stop.flags .keyword = true ∧
      runLoop .keyword c5Env st429stop [.ok ⟨[], true, none, none⟩]
        = st429stop) ∧
    ((runLoop .keyword c5Env (initialRunState [] [] none)
        [.rateLimited ⟨none, none, none⟩]).fetchedOffsets = ["0"] ∧
      (runLoop .keyword c5Env (initialRunState [] [] none)
        [.rateLimited ⟨none, none, none⟩]).flags = ⟨true, true, true⟩) := by
  obtain ⟨ha, hb, hc, hd, he⟩ := quota429_halts_all_runs
  exact ⟨ha ⟨none, none, none⟩ none ⟨false, false, false⟩,
    hb ⟨none, none, none⟩ none ⟨false, false, false⟩,
    hc ⟨none, none, none⟩ none ⟨false, false, false⟩ (Or.inl rfl),
    ⟨by decide, hd .keyword c5Env st429stop [.ok ⟨[], true, none, none⟩]
      (by decide)⟩,
    he .keyword c5Env (initialRunState [] [] none) ⟨none, none, none⟩ []
      (by decide) (by decide) (by decide)⟩

end Plugin
